import Mathlib

/-!
Verification of the synchronous record-graph cache (Orbit sync record cache).

The development shallowly embeds the TypeScript sources:
  packages/@orbit/data/src/record.ts
  packages/@orbit/store/src/sync-record-cache/sync-record-cache.ts
  packages/@orbit/store/src/sync-record-cache/sync-record-accessor.ts
  packages/@orbit/store/src/sync-record-cache/operators/patch-operators.ts
  packages/@orbit/store/src/sync-record-cache/operators/inverse-patch-operators.ts
  packages/@orbit/store/src/sync-record-cache/operators/query-operators.ts
  packages/@orbit/store/src/sync-record-cache/sync-operation-processors/cache-integrity-processor.ts
plus the concrete in-memory Cache (store variant).

JS objects with string keys are modelled as association lists in insertion
order.  JS `undefined` for a missing property is modelled with Option; the
distinguished value `Value.vundef` models `undefined` stored explicitly in a
property.  Helpers from @orbit/utils (deepGet, deepSet, eq, clone, merge,
isArray, isNone) are not under src/ and are modelled from the spec where their
behaviour matters; each such definition carries a note.
-/

namespace Orbit

/-- Association-list dictionary with string keys, in insertion order,
modelling a JS object. -/
abbrev Dict (α : Type) := List (String × α)

/-- Property read: first entry with the key (JS objects have unique keys;
the operations below preserve uniqueness). -/
def dictGet {α : Type} : Dict α → String → Option α
  | [], _ => none
  | (k, v) :: t, k' => if k = k' then some v else dictGet t k'

/-- Property write: replace in place, or append a new key at the end
(JS assignment preserves existing key order and appends new keys). -/
def dictSet {α : Type} : Dict α → String → α → Dict α
  | [], k', v' => [(k', v')]
  | (k, v) :: t, k', v' => if k = k' then (k, v') :: t else (k, v) :: dictSet t k' v'

/-- Property deletion, modelling the JS delete operator: every entry with
the key is dropped, which on the unique-keyed dictionaries JS objects are
coincides with deleting the property. -/
def dictRemove {α : Type} : Dict α → String → Dict α
  | [], _ => []
  | (k, v) :: t, k' => if k = k' then dictRemove t k' else (k, v) :: dictRemove t k'

/-- Object.keys: key list in insertion order. -/
def dictKeys {α : Type} (d : Dict α) : List String := d.map Prod.fst

/-- A dictionary is well formed when its keys are distinct, as JS object keys
always are. -/
def dictWF {α : Type} (d : Dict α) : Prop := (dictKeys d).Nodup

instance {α : Type} (d : Dict α) : Decidable (dictWF d) := by
  unfold dictWF; infer_instance

/-- JS values stored in record attributes and keys.  Numbers are modelled as
integers (no claim under verification involves fractional values); arrays are
modelled with number elements, enough to exercise the non-primitive cases of
the claims; deeper object nesting is not needed by any claim and is omitted
from the value grammar. -/
inductive Value : Type
  | vundef : Value
  | vnull : Value
  | vbool (b : Bool) : Value
  | vnum (n : Int) : Value
  | vstr (s : String) : Value
  | varr (elems : List Int) : Value
deriving DecidableEq, Repr

/-- A primitive JS value (compared by value under strict equality). -/
def Value.isPrimitive : Value → Bool
  | .varr _ => false
  | _ => true

/-- Record identity from record.ts: a (type, id) pair. -/
structure RecordIdentity : Type where
  type : String
  id : String
deriving DecidableEq, Repr

/-- The data field of a relationship as stored in a record: a hasOne target
identity, null, or a hasMany identity array.  The source wraps this in an
object with a single data property; the wrapper is collapsed here and all
deepGet/deepSet paths ending in data act on this payload directly. -/
inductive RelData : Type
  | single (t : RecordIdentity) : RelData
  | nullData : RelData
  | many (ts : List RecordIdentity) : RelData
deriving DecidableEq, Repr

/-- A record from record.ts: identity plus optional keys, attributes and
relationships mappings.  Option none models the grouping property being
absent from the JS object, which strict structural equality distinguishes
from an empty mapping. -/
structure Record : Type where
  type : String
  id : String
  keys : Option (Dict Value) := none
  attributes : Option (Dict Value) := none
  relationships : Option (Dict RelData) := none
deriving DecidableEq, Repr

/-- The identity of a record. -/
def Record.identity (r : Record) : RecordIdentity := ⟨r.type, r.id⟩

/-- cloneRecordIdentity from record.ts. -/
def cloneRecordIdentity (i : RecordIdentity) : RecordIdentity := ⟨i.type, i.id⟩

/-- A back-reference stored in the inverse-relationship index: the owner
record identity plus the relationship name through which it points at the
indexed record (RelatedRecordIdentity in the source). -/
structure RelatedRecordIdentity : Type where
  record : RecordIdentity
  relationship : String
deriving DecidableEq, Repr

/-- The state owned by the concrete Cache: the primary record store
(type to id to record) and the inverse-relationship index
(type to id to back-ref list). -/
structure CacheState : Type where
  records : Dict (Dict Record)
  inverseRelationships : Dict (Dict (List RelatedRecordIdentity))
deriving DecidableEq, Repr

/-- getRecord: look the identity up in its type bucket.  Absent is none,
matching the undefined returned by the concrete Cache. -/
def getRecord (s : CacheState) (i : RecordIdentity) : Option Record :=
  (dictGet s.records i.type).bind (fun bucket => dictGet bucket i.id)

/-- getRecords: all records of a type, in store order. -/
def getRecords (s : CacheState) (type : String) : List Record :=
  ((dictGet s.records type).getD []).map Prod.snd

/-- setRecord: upsert the record into the bucket named by the record's own
type, keyed by the record's own id. -/
def setRecord (s : CacheState) (r : Record) : CacheState :=
  { s with records :=
      dictSet s.records r.type (dictSet ((dictGet s.records r.type).getD []) r.id r) }

/-- removeRecord primitive of the concrete Cache: delete and return the prior
record, or return null when absent. -/
def removeRecordPrim (s : CacheState) (i : RecordIdentity) : CacheState × Option Record :=
  match getRecord s i with
  | some r =>
      ({ s with records :=
          dictSet s.records i.type (dictRemove ((dictGet s.records i.type).getD []) i.id) },
       some r)
  | none => (s, none)

/-- getInverselyRelatedRecords: the back-ref list for an identity, empty when
absent. -/
def getInverselyRelatedRecords (s : CacheState) (i : RecordIdentity) :
    List RelatedRecordIdentity :=
  ((dictGet s.inverseRelationships i.type).bind (fun b => dictGet b i.id)).getD []

/-- addInverselyRelatedRecord: append one back-ref to the identity's list. -/
def addInverselyRelatedRecord (s : CacheState) (i : RecordIdentity)
    (rel : RelatedRecordIdentity) : CacheState :=
  let current := getInverselyRelatedRecords s i
  let bucket := (dictGet s.inverseRelationships i.type).getD []
  { s with inverseRelationships :=
      dictSet s.inverseRelationships i.type (dictSet bucket i.id (current ++ [rel])) }

/-- equalRecordIdentities from record.ts, on possibly-null identities:
null equals only null, otherwise component-wise. -/
def equalRecordIdentities : Option RecordIdentity → Option RecordIdentity → Bool
  | none, none => true
  | some a, some b => a.type = b.type && a.id = b.id
  | _, _ => false

/-- removeInverselyRelatedRecord: drop every entry matching the given owner
identity and relationship name.  When the identity has no entry the index is
untouched. -/
def removeInverselyRelatedRecord (s : CacheState) (i : RecordIdentity)
    (rel : RelatedRecordIdentity) : CacheState :=
  match (dictGet s.inverseRelationships i.type).bind (fun b => dictGet b i.id) with
  | none => s
  | some rels =>
      let bucket := (dictGet s.inverseRelationships i.type).getD []
      let newRels := rels.filter (fun r =>
        !(r.record.type = rel.record.type && r.record.id = rel.record.id &&
          r.relationship = rel.relationship))
      { s with inverseRelationships :=
          dictSet s.inverseRelationships i.type (dictSet bucket i.id newRels) }

/-- removeInverseRelationships: clear the whole back-ref entry for an
identity. -/
def removeInverseRelationships (s : CacheState) (i : RecordIdentity) : CacheState :=
  let bucket := (dictGet s.inverseRelationships i.type).getD []
  { s with inverseRelationships :=
      dictSet s.inverseRelationships i.type (dictRemove bucket i.id) }

/-- serializeRecordIdentity from record.ts. -/
def serializeRecordIdentity (r : RecordIdentity) : String := r.type ++ ":" ++ r.id

/-- serializeRecordIdentities from record.ts. -/
def serializeRecordIdentities (rs : List RecordIdentity) : List String :=
  rs.map serializeRecordIdentity

/-- exclusiveIdentities from record.ts: serialized identities of the first
list that are not in the second. -/
def exclusiveIdentities (ids1 ids2 : List String) : List String :=
  ids1.filter (fun i => !ids2.contains i)

/-- exclusiveOfRecordIdentitySet from record.ts.  The source deserializes the
surviving strings back into identities; splitting the serialized form on the
first colon reproduces the original components whenever the type contains no
colon, which holds for every identity below. -/
def exclusiveOfRecordIdentitySet (set1 set2 : List RecordIdentity) : List RecordIdentity :=
  set1.filter (fun r =>
    !(serializeRecordIdentities set2).contains (serializeRecordIdentity r))

/-- equalRecordIdentitySets from record.ts: equal lengths and mutually
exclusive-free, i.e. multiset equality up to duplicates. -/
def equalRecordIdentitySets (set1 set2 : List RecordIdentity) : Bool :=
  if set1.length = set2.length then
    if set1.length = 0 then true
    else
      let s1 := serializeRecordIdentities set1
      let s2 := serializeRecordIdentities set2
      (exclusiveIdentities s1 s2).length = 0 && (exclusiveIdentities s2 s1).length = 0
  else false

/-- recordIdentitySetIncludes from record.ts. -/
def recordIdentitySetIncludes (set : List RecordIdentity) (r : RecordIdentity) : Bool :=
  set.any (fun x => equalRecordIdentities (some x) (some r))

/-- equalRecordIdentities applied to relationship data payloads, as in the
inverse operator for replaceRelatedRecord.  Two hasMany arrays compare equal
here because in JS both operands then have undefined type and id properties;
an array never equals null or a proper identity. -/
def equalRecordIdentitiesRel : RelData → RelData → Bool
  | .nullData, .nullData => true
  | .single a, .single b => a.type = b.type && a.id = b.id
  | .many _, .many _ => true
  | _, _ => false

/-- Modelled from the spec: eq from @orbit/utils (not under src/), the
structural deep-equality used by the inverse-patch operators; on the value
grammar it coincides with structural equality, with an explicitly stored
undefined equal to undefined. -/
def eqValue (a b : Value) : Bool := a = b

/-- eq applied to a possibly-undefined current value (deepGet result) and an
operation value: a missing property reads as undefined. -/
def eqValueOpt (current : Option Value) (v : Value) : Bool :=
  eqValue (current.getD .vundef) v

/-- Pointwise dictionary comparison ignoring key order, used by the deep
equality on records. -/
def dictEqBy {α : Type} (f : α → α → Bool) (a b : Dict α) : Bool :=
  a.length = b.length &&
  (dictKeys a).all (fun k =>
    match dictGet a k, dictGet b k with
    | some x, some y => f x y
    | _, _ => false)

/-- Optional-grouping comparison: a grouping that is absent from one record
and present on the other makes the records unequal. -/
def optDictEqBy {α : Type} (f : α → α → Bool) : Option (Dict α) → Option (Dict α) → Bool
  | none, none => true
  | some a, some b => dictEqBy f a b
  | _, _ => false

/-- Modelled from the spec: eq from @orbit/utils on whole records (used by
the inverse operator for addRecord): structural deep equality, insensitive to
property order, sensitive to presence of groupings and fields. -/
def eqRecord (a b : Record) : Bool :=
  a.type = b.type && a.id = b.id &&
  optDictEqBy eqValue a.keys b.keys &&
  optDictEqBy eqValue a.attributes b.attributes &&
  optDictEqBy (fun x y => x = y) a.relationships b.relationships

/-- The relationship data stored on a record under a name, none when the
relationships grouping or the entry is missing. -/
def relDataOf (r : Record) (rel : String) : Option RelData :=
  r.relationships.bind (fun d => dictGet d rel)

/-- getRelatedRecord from sync-record-accessor.ts: the raw relationship data
with null substituted for a missing record, missing relationship or falsy
data.  A truthy hasMany array (even an empty one) is returned as-is, faithful
to the JS expression data or-else null. -/
def getRelatedRecord (s : CacheState) (i : RecordIdentity) (rel : String) : RelData :=
  ((getRecord s i).bind (fun r => relDataOf r rel)).getD .nullData

/-- The value of getRelatedRecords from sync-record-accessor.ts: an identity
array in the intended case, or the bare identity object when the stored data
is a hasOne identity (the JS function returns the raw data unchanged when it
is truthy). -/
inductive IdsOrSingle : Type
  | ids (l : List RecordIdentity) : IdsOrSingle
  | singleId (t : RecordIdentity) : IdsOrSingle
deriving DecidableEq, Repr

/-- getRelatedRecords from sync-record-accessor.ts: data or-else the empty
array. -/
def getRelatedRecords (s : CacheState) (i : RecordIdentity) (rel : String) : IdsOrSingle :=
  match (getRecord s i).bind (fun r => relDataOf r rel) with
  | none => .ids []
  | some .nullData => .ids []
  | some (.many ts) => .ids ts
  | some (.single t) => .singleId t

/-- Runtime errors raised while patching: typed schema-validation failures,
JS TypeErrors from operating on undefined or non-array values, and the
embedding artifact of bounding processor recursion with fuel (the source
recursion is bounded by schema structure). -/
inductive Err : Type
  | schemaValidationError (desc : String) : Err
  | typeError (desc : String) : Err
  | fuelExhausted : Err
deriving DecidableEq, Repr

/-- relatedRecordsInclude from sync-record-accessor.ts, array branch (the
inverse operator for addToRelatedRecords passes a singleton array): true when
no member of the array is outside the current related records.  When the
stored data is a bare identity the JS map call inside serialization throws. -/
def relatedRecordsIncludeMany (s : CacheState) (i : RecordIdentity) (rel : String)
    (m : List RecordIdentity) : Except Err Bool :=
  match getRelatedRecords s i rel with
  | .ids l => .ok (decide ((exclusiveOfRecordIdentitySet m l).length = 0))
  | .singleId _ => .error (.typeError ("serializeRecordIdentities: map is not a function"))

/-- relatedRecordsInclude from sync-record-accessor.ts, single-identity
branch (the inverse operator for removeFromRelatedRecords): membership by
identity equality.  Iterating a bare identity object throws in JS. -/
def relatedRecordsIncludeOne (s : CacheState) (i : RecordIdentity) (rel : String)
    (m : RecordIdentity) : Except Err Bool :=
  match getRelatedRecords s i rel with
  | .ids l => .ok (recordIdentitySetIncludes l m)
  | .singleId _ => .error (.typeError ("recordIdentitySetIncludes: set is not iterable"))

/-- Modelled from the spec: merge from @orbit/utils (not under src/):
shallow-merge the incoming mapping into the existing mapping, field-level
override, other fields preserved; existing key order kept, new keys
appended. -/
def dictMerge {α : Type} (current updates : Dict α) : Dict α :=
  updates.foldl (fun acc kv => dictSet acc kv.1 kv.2) current

/-- Per-grouping combination from mergeRecords in record.ts: both present
merge, one present copy, neither absent. -/
def mergeGrouping {α : Type} : Option (Dict α) → Option (Dict α) → Option (Dict α)
  | some c, some u => some (dictMerge c u)
  | some c, none => some c
  | none, some u => some u
  | none, none => none

/-- mergeRecords from record.ts: start from the current identity and combine
each grouping; with no current record the update is taken verbatim. -/
def mergeRecords (current : Option Record) (updates : Record) : Record :=
  match current with
  | some c =>
      { type := c.type, id := c.id,
        keys := mergeGrouping c.keys updates.keys,
        attributes := mergeGrouping c.attributes updates.attributes,
        relationships := mergeGrouping c.relationships updates.relationships }
  | none => updates

/-- The record-operation algebra (RecordOperation in @orbit/data).  The
replaceRelatedRecord payload carries relationship data so that both an
identity and null are representable, exactly the values the source stores in
that field. -/
inductive RecordOperation : Type
  | addRecord (record : Record) : RecordOperation
  | replaceRecord (record : Record) : RecordOperation
  | removeRecord (record : RecordIdentity) : RecordOperation
  | replaceKey (record : RecordIdentity) (key : String) (value : Value) : RecordOperation
  | replaceAttribute (record : RecordIdentity) (attr : String) (value : Value) :
      RecordOperation
  | addToRelatedRecords (record : RecordIdentity) (relationship : String)
      (relatedRecord : RecordIdentity) : RecordOperation
  | removeFromRelatedRecords (record : RecordIdentity) (relationship : String)
      (relatedRecord : RecordIdentity) : RecordOperation
  | replaceRelatedRecords (record : RecordIdentity) (relationship : String)
      (relatedRecords : List RecordIdentity) : RecordOperation
  | replaceRelatedRecord (record : RecordIdentity) (relationship : String)
      (relatedRecord : RelData) : RecordOperation
deriving DecidableEq, Repr

/-- The record identity an operation names in its record field. -/
def RecordOperation.recordIdentity : RecordOperation → RecordIdentity
  | .addRecord r => ⟨r.type, r.id⟩
  | .replaceRecord r => ⟨r.type, r.id⟩
  | .removeRecord i => i
  | .replaceKey i _ _ => i
  | .replaceAttribute i _ _ => i
  | .addToRelatedRecords i _ _ => i
  | .removeFromRelatedRecords i _ _ => i
  | .replaceRelatedRecords i _ _ => i
  | .replaceRelatedRecord i _ _ => i

/-- Relationship kind from the schema contract. -/
inductive RelKind : Type
  | hasOne : RelKind
  | hasMany : RelKind
deriving DecidableEq, Repr

/-- A relationship declaration: kind, target model, optional named inverse.
The cache-integrity processor reads the kind under the property name type;
it is called kind here. -/
structure RelationshipDef : Type where
  kind : RelKind
  model : String
  inverse : Option String := none
deriving DecidableEq, Repr

/-- A model declaration: the declared attribute, key and relationship
names. -/
structure ModelDef : Type where
  attributes : List String := []
  keys : List String := []
  relationships : Dict RelationshipDef := []
deriving DecidableEq, Repr

/-- The schema view: model declarations by type name. -/
structure Schema : Type where
  models : Dict ModelDef
deriving DecidableEq, Repr

/-- getModel from the schema contract: none models the undefined lookup that
makes dependent property accesses throw in JS. -/
def Schema.getModel (sch : Schema) (type : String) : Option ModelDef :=
  dictGet sch.models type

/-- The relationship declaration for a type and relationship name. -/
def relationshipDefOf (sch : Schema) (type rel : String) : Option RelationshipDef :=
  (sch.getModel type).bind (fun m => dictGet m.relationships rel)

/-- The result datum of a patch operator: the resulting record, or null. -/
abbrev PatchResultData := Option Record

/-- The record a relationship-level operator starts from: the clone of the
existing record, or a bare record synthesized from the operation identity
(cloneRecordIdentity in the source). -/
def recordOrSynthesized (s : CacheState) (i : RecordIdentity) : Record :=
  match getRecord s i with
  | some r => r
  | none => { type := i.type, id := i.id }

/-- PatchOperators from patch-operators.ts.  Key-map pushes are outside the
verified state (the claims bar key-map effects).  deepSet only skips the
store write when the written value is strictly identical to the stored one;
for object payloads (identities, arrays) the operands are distinct heap
objects, so the only skipping case in reach is writing null over null in
replaceRelatedRecord. -/
def patchOperator (s : CacheState) : RecordOperation → Except Err (CacheState × PatchResultData)
  | .addRecord record => .ok (setRecord s record, some record)
  | .replaceRecord record =>
      let mergedRecord := mergeRecords (getRecord s ⟨record.type, record.id⟩) record
      .ok (setRecord s mergedRecord, some mergedRecord)
  | .removeRecord i =>
      let (s', prior) := removeRecordPrim s i
      .ok (s', prior)
  | .replaceKey i key value =>
      let record := recordOrSynthesized s i
      let record' := { record with keys := some (dictSet (record.keys.getD []) key value) }
      .ok (setRecord s record', some record')
  | .replaceAttribute i attr value =>
      let record := recordOrSynthesized s i
      let record' :=
        { record with attributes := some (dictSet (record.attributes.getD []) attr value) }
      .ok (setRecord s record', some record')
  | .addToRelatedRecords i relationship relatedRecord => do
      let record := recordOrSynthesized s i
      let relatedRecords ←
        match relDataOf record relationship with
        | none => pure []
        | some .nullData => pure []
        | some (.many ts) => pure ts
        | some (.single _) => .error (.typeError ("push is not a function"))
      let newData := RelData.many (relatedRecords ++ [relatedRecord])
      let newRels := dictSet (record.relationships.getD []) relationship newData
      let record' := { record with relationships := some newRels }
      .ok (setRecord s record', some record')
  | .removeFromRelatedRecords i relationship relatedRecord =>
      match getRecord s i with
      | none => .ok (s, none)
      | some record =>
          match relDataOf record relationship with
          | none => .ok (s, some record)
          | some .nullData => .ok (s, some record)
          | some (.single _) => .error (.typeError ("filter is not a function"))
          | some (.many ts) =>
              let filtered :=
                ts.filter (fun r => !equalRecordIdentities (some r) (some relatedRecord))
              let newRels :=
                dictSet (record.relationships.getD []) relationship (.many filtered)
              let record' := { record with relationships := some newRels }
              .ok (setRecord s record', some record')
  | .replaceRelatedRecords i relationship relatedRecords =>
      let record := recordOrSynthesized s i
      let newRels :=
        dictSet (record.relationships.getD []) relationship (.many relatedRecords)
      let record' := { record with relationships := some newRels }
      .ok (setRecord s record', some record')
  | .replaceRelatedRecord i relationship relatedRecord =>
      let record := recordOrSynthesized s i
      if relDataOf record relationship = some .nullData && relatedRecord = .nullData then
        .ok (s, some record)
      else
        let newRels := dictSet (record.relationships.getD []) relationship relatedRecord
        let record' := { record with relationships := some newRels }
        .ok (setRecord s record', some record')

/-- The inverse operator for replaceRecord from inverse-patch-operators.ts:
build a delta record holding the current value of every attribute, key and
relationship field that the replacement would change.  equalRecordIdentitySets
reads the length property of the current data, which throws in JS when the
current data is undefined or null while the replacement data is an array; a
bare identity has an undefined length, failing the length test without a
throw. -/
def inverseReplaceRecord (s : CacheState) (replacement : Record) :
    Except Err (Option RecordOperation) := do
  match getRecord s ⟨replacement.type, replacement.id⟩ with
  | none => pure (some (.removeRecord ⟨replacement.type, replacement.id⟩))
  | some current => do
      let keyFields := (replacement.keys.getD []).filter (fun kv =>
        !eqValueOpt (current.keys.bind (fun d => dictGet d kv.1)) kv.2)
      let attrFields := (replacement.attributes.getD []).filter (fun kv =>
        !eqValueOpt (current.attributes.bind (fun d => dictGet d kv.1)) kv.2)
      let relFields ← (replacement.relationships.getD []).filterM (fun kv => do
        let currentData := relDataOf current kv.1
        match kv.2 with
        | .many l =>
            match currentData with
            | none => throw (.typeError ("cannot read length of undefined"))
            | some .nullData => throw (.typeError ("cannot read length of null"))
            | some (.single _) => pure true
            | some (.many cur) => pure (!equalRecordIdentitySets cur l)
        | d => pure (!equalRecordIdentitiesRel (currentData.getD .nullData) d))
      let keyResult := keyFields.map (fun kv =>
        (kv.1, (current.keys.bind (fun d => dictGet d kv.1)).getD .vnull))
      let attrResult := attrFields.map (fun kv =>
        (kv.1, (current.attributes.bind (fun d => dictGet d kv.1)).getD .vnull))
      let relResult := relFields.map (fun kv =>
        (kv.1, (relDataOf current kv.1).getD .nullData))
      if keyResult.isEmpty && attrResult.isEmpty && relResult.isEmpty then
        pure none
      else
        pure (some (.replaceRecord
          { type := replacement.type, id := replacement.id,
            keys := if keyResult.isEmpty then none else some keyResult,
            attributes := if attrResult.isEmpty then none else some attrResult,
            relationships := if relResult.isEmpty then none else some relResult }))

/-- InversePatchOperators from inverse-patch-operators.ts: inspect the
current state and produce the undo operation, or none when the operation is a
no-op against the current state.  The replaceAttribute operator destructures
the looked-up record, throwing a TypeError when the record is absent and the
value differs. -/
def inverseTransform (s : CacheState) : RecordOperation → Except Err (Option RecordOperation)
  | .addRecord record =>
      match getRecord s ⟨record.type, record.id⟩ with
      | none => .ok (some (.removeRecord ⟨record.type, record.id⟩))
      | some current =>
          if eqRecord current record then .ok none
          else .ok (some (.replaceRecord current))
  | .replaceRecord replacement => inverseReplaceRecord s replacement
  | .removeRecord i =>
      match getRecord s i with
      | some current => .ok (some (.addRecord current))
      | none => .ok none
  | .replaceKey i key value =>
      let record := getRecord s i
      let current := record.bind (fun r => r.keys.bind (fun d => dictGet d key))
      if eqValueOpt current value then .ok none
      else .ok (some (.replaceKey ⟨i.type, i.id⟩ key (current.getD .vundef)))
  | .replaceAttribute i attr value =>
      let record := getRecord s i
      let current := record.bind (fun r => r.attributes.bind (fun d => dictGet d attr))
      if eqValueOpt current value then .ok none
      else
        match record with
        | none => .error (.typeError ("cannot destructure type of undefined"))
        | some r => .ok (some (.replaceAttribute ⟨r.type, r.id⟩ attr (current.getD .vundef)))
  | .addToRelatedRecords record relationship relatedRecord => do
      let included ← relatedRecordsIncludeMany s record relationship [relatedRecord]
      if included then pure none
      else pure (some (.removeFromRelatedRecords record relationship relatedRecord))
  | .removeFromRelatedRecords record relationship relatedRecord => do
      let included ← relatedRecordsIncludeOne s record relationship relatedRecord
      if included then pure (some (.addToRelatedRecords record relationship relatedRecord))
      else pure none
  | .replaceRelatedRecords record relationship relatedRecords =>
      match getRelatedRecords s record relationship with
      | .ids currentRelatedRecords =>
          if equalRecordIdentitySets currentRelatedRecords relatedRecords then .ok none
          else .ok (some (.replaceRelatedRecords record relationship currentRelatedRecords))
      | .singleId _ =>
          .error (.typeError ("inverse for replaceRelatedRecords over non-array data"))
  | .replaceRelatedRecord record relationship relatedRecord =>
      let currentRelatedRecord := getRelatedRecord s record relationship
      if equalRecordIdentitiesRel currentRelatedRecord relatedRecord then .ok none
      else .ok (some (.replaceRelatedRecord record relationship currentRelatedRecord))

/-- The identities an operation references: its record identity and every
related identity it carries. -/
def referencedIdentities : RecordOperation → List RecordIdentity
  | .addRecord r => [⟨r.type, r.id⟩]
  | .replaceRecord r => [⟨r.type, r.id⟩]
  | .removeRecord i => [i]
  | .replaceKey i _ _ => [i]
  | .replaceAttribute i _ _ => [i]
  | .addToRelatedRecords i _ t => [i, t]
  | .removeFromRelatedRecords i _ t => [i, t]
  | .replaceRelatedRecords i _ ts => i :: ts
  | .replaceRelatedRecord i _ d =>
      i :: (match d with | .single t => [t] | .many ts => ts | .nullData => [])

/-- Modelled from the spec: the record-field check of
SchemaValidationProcessor (source not under src/): every mentioned key,
attribute and relationship name must be declared on the model. -/
def validateRecordFields (sch : Schema) (r : Record) : Except Err Unit :=
  match sch.getModel r.type with
  | none => throw (.schemaValidationError (r.type))
  | some m =>
      if (dictKeys (r.keys.getD [])).all (fun k => m.keys.contains k) &&
         (dictKeys (r.attributes.getD [])).all (fun a => m.attributes.contains a) &&
         (dictKeys (r.relationships.getD [])).all (fun rel =>
           (dictGet m.relationships rel).isSome)
      then pure ()
      else throw (.schemaValidationError ("undeclared field"))

/-- Modelled from the spec: the validate hook of SchemaValidationProcessor
(source not under src/): for every identity the operation references the type
must be declared; for addRecord and replaceRecord every mentioned field must
be declared on the model.  Every other hook of this processor is a no-op. -/
def schemaValidate (sch : Schema) (op : RecordOperation) : Except Err Unit :=
  if (referencedIdentities op).all (fun i => (sch.getModel i.type).isSome) then
    match op with
    | .addRecord r => validateRecordFields sch r
    | .replaceRecord r => validateRecordFields sch r
    | _ => pure ()
  else throw (.schemaValidationError ("undeclared type"))

/-- Modelled from the spec: the propagation operation that adds the owner to
the peer's inverse relationship, shaped by the inverse relationship's kind on
the peer's model. -/
def addRelationshipOp (sch : Schema) (relatedRecord : RecordIdentity) (inverseRel : String)
    (record : RecordIdentity) : Except Err RecordOperation :=
  match relationshipDefOf sch relatedRecord.type inverseRel with
  | none => throw (.typeError ("undeclared inverse relationship"))
  | some rdef =>
      if rdef.kind = .hasMany then
        pure (.addToRelatedRecords relatedRecord inverseRel record)
      else pure (.replaceRelatedRecord relatedRecord inverseRel (.single record))

/-- Modelled from the spec: the propagation operation that removes the owner
from the peer's inverse relationship: the dual removal for hasMany, a null
assignment for hasOne. -/
def removeRelationshipOp (sch : Schema) (relatedRecord : RecordIdentity) (inverseRel : String)
    (record : RecordIdentity) : Except Err RecordOperation :=
  match relationshipDefOf sch relatedRecord.type inverseRel with
  | none => throw (.typeError ("undeclared inverse relationship"))
  | some rdef =>
      if rdef.kind = .hasMany then
        pure (.removeFromRelatedRecords relatedRecord inverseRel record)
      else pure (.replaceRelatedRecord relatedRecord inverseRel .nullData)

/-- The identities held in an optional relationship data payload. -/
def relDataIdentities : Option RelData → List RecordIdentity
  | some (.single t) => [t]
  | some (.many ts) => ts
  | _ => []

/-- Modelled from the spec: the propagation injected by
SchemaConsistencyProcessor for addRecord and replaceRecord: for each
relationship with a declared inverse mentioned by the written record, the
delta of its identity set against the prior state, injected as the same
removal and addition operations. -/
def consistencyRecordWritten (sch : Schema) (s : CacheState) (r : Record) :
    Except Err (List RecordOperation) := do
  let i : RecordIdentity := ⟨r.type, r.id⟩
  let prior := getRecord s i
  let opLists ← (r.relationships.getD []).mapM (fun kv => do
    match relationshipDefOf sch r.type kv.1 with
    | none => throw (.typeError ("undeclared relationship"))
    | some rdef =>
        match rdef.inverse with
        | none => pure []
        | some inv => do
            let oldIds := relDataIdentities (prior.bind (fun p => relDataOf p kv.1))
            let newIds := relDataIdentities (some kv.2)
            let removed := exclusiveOfRecordIdentitySet oldIds newIds
            let added := exclusiveOfRecordIdentitySet newIds oldIds
            let removalOps ← removed.mapM (fun t => removeRelationshipOp sch t inv i)
            let additionOps ← added.mapM (fun t => addRelationshipOp sch t inv i)
            pure (removalOps ++ additionOps))
  pure opLists.flatten

/-- Modelled from the spec: the after hook of SchemaConsistencyProcessor
(source not under src/).  For each relationship with a declared inverse it
injects the operations that propagate the pending change to the peer side,
reading the state prior to the main mutation; the pipeline applies the
returned operations after the main operator.  For the set-valued operations
the delta is computed with identity-set difference; removals are injected
before additions. -/
def consistencyAfter (sch : Schema) (s : CacheState) :
    RecordOperation → Except Err (List RecordOperation)
  | .addToRelatedRecords record rel related =>
      match relationshipDefOf sch record.type rel with
      | none => throw (.typeError ("undeclared relationship"))
      | some rdef =>
          match rdef.inverse with
          | some inv => do pure [← addRelationshipOp sch related inv record]
          | none => pure []
  | .removeFromRelatedRecords record rel related =>
      match relationshipDefOf sch record.type rel with
      | none => throw (.typeError ("undeclared relationship"))
      | some rdef =>
          match rdef.inverse with
          | some inv => do pure [← removeRelationshipOp sch related inv record]
          | none => pure []
  | .replaceRelatedRecord record rel related =>
      match relationshipDefOf sch record.type rel with
      | none => throw (.typeError ("undeclared relationship"))
      | some rdef =>
          match rdef.inverse with
          | none => pure []
          | some inv => do
              let current := getRelatedRecord s record rel
              if equalRecordIdentitiesRel related current then pure []
              else do
                let removals ←
                  match current with
                  | .single t => do pure [← removeRelationshipOp sch t inv record]
                  | _ => pure []
                let additions ←
                  match related with
                  | .single t => do pure [← addRelationshipOp sch t inv record]
                  | .nullData => pure []
                  | .many _ => throw (.typeError ("non-identity data in hasOne assignment"))
                pure (removals ++ additions)
  | .replaceRelatedRecords record rel newSet =>
      match relationshipDefOf sch record.type rel with
      | none => throw (.typeError ("undeclared relationship"))
      | some rdef =>
          match rdef.inverse with
          | none => pure []
          | some inv => do
              let current ←
                match getRelatedRecords s record rel with
                | .ids l => pure l
                | .singleId _ => throw (.typeError ("non-array data in hasMany relationship"))
              let removed := exclusiveOfRecordIdentitySet current newSet
              let added := exclusiveOfRecordIdentitySet newSet current
              let removalOps ← removed.mapM (fun t => removeRelationshipOp sch t inv record)
              let additionOps ← added.mapM (fun t => addRelationshipOp sch t inv record)
              pure (removalOps ++ additionOps)
  | .addRecord r => consistencyRecordWritten sch s r
  | .replaceRecord r => consistencyRecordWritten sch s r
  | .removeRecord i =>
      match getRecord s i with
      | none => pure []
      | some current => do
          let opLists ← (current.relationships.getD []).mapM (fun kv => do
            match relationshipDefOf sch i.type kv.1 with
            | none => throw (.typeError ("undeclared relationship"))
            | some rdef =>
                match rdef.inverse with
                | none => pure []
                | some inv =>
                    (relDataIdentities (some kv.2)).mapM
                      (fun t => removeRelationshipOp sch t inv i))
          pure opLists.flatten
  | _ => pure []

/-- removeInverseRelationship of CacheIntegrityProcessor: when the
relationship declares an inverse, drop the back-ref pointing at the related
record; with no explicit related record the current data is read, a falsy
value skipping the removal.  A missing relationship declaration, or keying
the index by a non-identity value, throws in JS. -/
def integrityRemoveInverseRelationship (sch : Schema) (s : CacheState)
    (record : RecordIdentity) (relationship : String)
    (relatedRecord : Option RecordIdentity) : Except Err CacheState :=
  match relationshipDefOf sch record.type relationship with
  | none => throw (.typeError ("cannot read inverse of undefined"))
  | some rdef =>
      if rdef.inverse.isSome then
        let resolved : RelData :=
          match relatedRecord with
          | some r => .single r
          | none =>
              ((getRecord s record).bind (fun cr => relDataOf cr relationship)).getD .nullData
        match resolved with
        | .nullData => pure s
        | .single t => pure (removeInverselyRelatedRecord s t ⟨record, relationship⟩)
        | .many _ => throw (.typeError ("cannot key the inverse index by an array"))
      else pure s

/-- removeInverseRelationships of CacheIntegrityProcessor: like the singular
form but over an identity array; with no explicit array the current data is
read, a falsy value skipping the removals and non-array data throwing. -/
def integrityRemoveInverseRelationships (sch : Schema) (s : CacheState)
    (record : RecordIdentity) (relationship : String)
    (relatedRecords : Option (List RecordIdentity)) : Except Err CacheState :=
  match relationshipDefOf sch record.type relationship with
  | none => throw (.typeError ("cannot read inverse of undefined"))
  | some rdef =>
      if rdef.inverse.isSome then
        match relatedRecords with
        | some rs =>
            pure (rs.foldl (fun st t => removeInverselyRelatedRecord st t ⟨record, relationship⟩) s)
        | none =>
            match (getRecord s record).bind (fun cr => relDataOf cr relationship) with
            | none => pure s
            | some .nullData => pure s
            | some (.single _) => throw (.typeError ("forEach is not a function"))
            | some (.many ts) =>
                pure (ts.foldl
                  (fun st t => removeInverselyRelatedRecord st t ⟨record, relationship⟩) s)
      else pure s

/-- removeAllInverseRelationships of CacheIntegrityProcessor: for every
relationship present on the cached record, drop the back-refs this record
contributed (no inverse-declaration check appears in the source here), then
clear the record's own back-ref entry. -/
def integrityRemoveAllInverseRelationships (s : CacheState) (record : RecordIdentity) :
    CacheState :=
  let s' :=
    match getRecord s record with
    | some rec =>
        (rec.relationships.getD []).foldl (fun st kv =>
          match kv.2 with
          | .many ts =>
              ts.foldl (fun st2 t => removeInverselyRelatedRecord st2 t ⟨record, kv.1⟩) st
          | .single t => removeInverselyRelatedRecord st t ⟨record, kv.1⟩
          | .nullData => st) s
    | none => s
  removeInverseRelationships s' record

/-- clearInverseRelationshipOps of CacheIntegrityProcessor: for every
back-ref pointing at the record, the operation that removes the corresponding
forward pointer on the owner, dispatched on the owner relationship's declared
kind. -/
def clearInverseRelationshipOps (sch : Schema) (s : CacheState) (record : RecordIdentity) :
    Except Err (List RecordOperation) :=
  let inverseRels := getInverselyRelatedRecords s record
  if inverseRels.isEmpty then pure []
  else
    let recordIdentity := cloneRecordIdentity record
    inverseRels.mapM (fun rel => do
      match relationshipDefOf sch rel.record.type rel.relationship with
      | none => throw (.typeError ("cannot read type of undefined"))
      | some rdef =>
          if rdef.kind = .hasMany then
            pure (.removeFromRelatedRecords rel.record rel.relationship recordIdentity)
          else pure (.replaceRelatedRecord rel.record rel.relationship .nullData))

/-- addInverseRelationship of CacheIntegrityProcessor: when the related value
is truthy and the relationship declares an inverse, append a back-ref at the
related record. -/
def integrityAddInverseRelationship (sch : Schema) (s : CacheState)
    (record : RecordIdentity) (relationship : String) (relatedRecord : RelData) :
    Except Err CacheState :=
  match relatedRecord with
  | .nullData => pure s
  | d =>
      match relationshipDefOf sch record.type relationship with
      | none => throw (.typeError ("cannot read inverse of undefined"))
      | some rdef =>
          if rdef.inverse.isSome then
            match d with
            | .single t =>
                pure (addInverselyRelatedRecord s t ⟨cloneRecordIdentity record, relationship⟩)
            | _ => throw (.typeError ("cannot key the inverse index by an array"))
          else pure s

/-- addInverseRelationships of CacheIntegrityProcessor: the plural form over
a non-empty identity array. -/
def integrityAddInverseRelationships (sch : Schema) (s : CacheState)
    (record : RecordIdentity) (relationship : String)
    (relatedRecords : List RecordIdentity) : Except Err CacheState :=
  if relatedRecords.isEmpty then pure s
  else
    match relationshipDefOf sch record.type relationship with
    | none => throw (.typeError ("cannot read inverse of undefined"))
    | some rdef =>
        if rdef.inverse.isSome then
          pure (relatedRecords.foldl
            (fun st t => addInverselyRelatedRecord st t ⟨cloneRecordIdentity record, relationship⟩)
            s)
        else pure s

/-- addAllInverseRelationships of CacheIntegrityProcessor: for every
relationship mentioned by the written record with truthy data, append
back-refs at the targets (the source performs no inverse-declaration check on
this path). -/
def integrityAddAllInverseRelationships (s : CacheState) (record : Record) : CacheState :=
  let recordIdentity : RecordIdentity := ⟨record.type, record.id⟩
  (record.relationships.getD []).foldl (fun st kv =>
    match kv.2 with
    | .many ts =>
        ts.foldl (fun st2 t => addInverselyRelatedRecord st2 t ⟨recordIdentity, kv.1⟩) st
    | .single t => addInverselyRelatedRecord st t ⟨recordIdentity, kv.1⟩
    | .nullData => st) s

/-- The after hook of CacheIntegrityProcessor: pre-mutation index cleanup,
returning for removeRecord the operations that realize dead-reference
cleanup on the owning peers. -/
def integrityAfter (sch : Schema) (s : CacheState) :
    RecordOperation → Except Err (CacheState × List RecordOperation)
  | .replaceRelatedRecord record rel _ => do
      let s' ← integrityRemoveInverseRelationship sch s record rel none
      pure (s', [])
  | .replaceRelatedRecords record rel _ => do
      let s' ← integrityRemoveInverseRelationships sch s record rel none
      pure (s', [])
  | .removeFromRelatedRecords record rel related => do
      let s' ← integrityRemoveInverseRelationship sch s record rel (some related)
      pure (s', [])
  | .removeRecord record => do
      let ops ← clearInverseRelationshipOps sch s record
      let s' := integrityRemoveAllInverseRelationships s record
      pure (s', ops)
  | .replaceRecord r =>
      pure (integrityRemoveAllInverseRelationships s ⟨r.type, r.id⟩, [])
  | _ => pure (s, [])

/-- The finally hook of CacheIntegrityProcessor: post-mutation insertion of
back-refs for the new pointer values; it returns no sub-operations. -/
def integrityFinally (sch : Schema) (s : CacheState) :
    RecordOperation → Except Err (CacheState × List RecordOperation)
  | .replaceRelatedRecord record rel related => do
      let s' ← integrityAddInverseRelationship sch s record rel related
      pure (s', [])
  | .replaceRelatedRecords record rel relateds => do
      let s' ← integrityAddInverseRelationships sch s record rel relateds
      pure (s', [])
  | .addToRelatedRecords record rel related => do
      let s' ← integrityAddInverseRelationship sch s record rel (.single related)
      pure (s', [])
  | .addRecord r => pure (integrityAddAllInverseRelationships s r, [])
  | .replaceRecord r => pure (integrityAddAllInverseRelationships s r, [])
  | _ => pure (s, [])

/-- The output of patch: the accumulated inverse operations and the primary
result data (null for skipped primary operations). -/
structure PatchResult : Type where
  inverse : List RecordOperation
  data : List PatchResultData
deriving DecidableEq, Repr

/-- The per-operation pipeline _applyOperation of sync-record-cache.ts under
the default processors SchemaValidation, SchemaConsistency, CacheIntegrity:
run the validate hooks, compute the inverse against the current state, and
when it is absent skip everything (pushing null to the data for a primary
operation); otherwise record the inverse, gather the after hooks before the
main mutation (the consistency and integrity reads, and the integrity index
cleanup, happen here), apply the main operator, push its datum when primary,
then apply the staged sub-operations and the finally hooks, recursing with
primary false.  The before and immediate hooks of all three processors
contribute nothing.  Event emission carries no cache state and is dropped.
Recursion is bounded by fuel, an embedding artifact; the source recursion is
bounded because injected operations are structural cleanups. -/
def applyOperation (sch : Schema) :
    Nat → CacheState → PatchResult → Bool → RecordOperation →
    Except Err (CacheState × PatchResult)
  | 0, _, _, _, _ => .error .fuelExhausted
  | Nat.succ fuel, s, result, primary, operation => do
      schemaValidate sch operation
      let inverseOp ← inverseTransform s operation
      match inverseOp with
      | none =>
          if primary then pure (s, { result with data := result.data ++ [none] })
          else pure (s, result)
      | some inv => do
          let result := { result with inverse := result.inverse ++ [inv] }
          let consistencyOps ← consistencyAfter sch s operation
          let (s, integrityOps) ← integrityAfter sch s operation
          let (s, data) ← patchOperator s operation
          let result :=
            if primary then { result with data := result.data ++ [data] } else result
          let (s, result) ← (consistencyOps ++ integrityOps).foldlM
            (fun p op => applyOperation sch fuel p.1 p.2 false op) (s, result)
          let (s, finallyOps) ← integrityFinally sch s operation
          let (s, result) ← finallyOps.foldlM
            (fun p op => applyOperation sch fuel p.1 p.2 false op) (s, result)
          pure (s, result)

/-- _applyOperations: fold the pipeline over an operation list with a shared
result. -/
def applyOperations (sch : Schema) (fuel : Nat) (s : CacheState) (result : PatchResult)
    (primary : Bool) (ops : List RecordOperation) : Except Err (CacheState × PatchResult) :=
  ops.foldlM (fun p op => applyOperation sch fuel p.1 p.2 primary op) (s, result)

/-- patch from sync-record-cache.ts: apply the operations as primary and
reverse the accumulated inverse list.  A single operation is the singleton
batch (the isArray branch applies the same per-operation procedure). -/
def patch (sch : Schema) (fuel : Nat) (s : CacheState) (ops : List RecordOperation) :
    Except Err (CacheState × PatchResult) := do
  let (s', result) ← applyOperations sch fuel s ⟨[], []⟩ true ops
  pure (s', { result with inverse := result.inverse.reverse })

/-- Errors raised by the query evaluator, distinguishable by the caller. -/
inductive QueryError : Type
  | recordNotFoundException (type id : String) : QueryError
  | queryExpressionParseError (desc : String) : QueryError
  | typeError (desc : String) : QueryError
deriving DecidableEq, Repr

/-- JS strict equality on attribute values: primitives compare by value; an
array is compared by reference, and the operands reaching applyFilter come
from the record store and from the query expression, which are distinct heap
objects, so array operands never compare equal here. -/
def jsStrictEq : Value → Value → Bool
  | .varr _, _ => false
  | _, .varr _ => false
  | a, b => a = b

/-- JS relational less-than on the value grammar: numbers by numeric order,
strings lexicographically; comparisons involving undefined are false, and the
numeric-coercion combinations (null or booleans against numbers) are outside
every claim and compare false here. -/
def jsLt : Value → Value → Bool
  | .vnum a, .vnum b => a < b
  | .vstr a, .vstr b => a < b
  | _, _ => false

/-- JS relational greater-than, same conventions as jsLt. -/
def jsGt : Value → Value → Bool
  | .vnum a, .vnum b => b < a
  | .vstr a, .vstr b => b < a
  | _, _ => false

/-- JS relational at-least, same conventions as jsLt. -/
def jsGe : Value → Value → Bool
  | .vnum a, .vnum b => b ≤ a
  | .vstr a, .vstr b => b ≤ a || a = b
  | _, _ => false

/-- JS relational at-most, same conventions as jsLt. -/
def jsLe : Value → Value → Bool
  | .vnum a, .vnum b => a ≤ b
  | .vstr a, .vstr b => a < b || a = b
  | _, _ => false

/-- isNone from @orbit/utils, modelled from its use sites: null or
undefined. -/
def isNoneValue : Value → Bool
  | .vundef => true
  | .vnull => true
  | _ => false

/-- Filter specifiers of findRecords.  The operator is kept as a string
because the source dispatches on it and throws on unrecognized names; the
catch-all constructor models an unrecognized filter kind, for which
applyFilter returns false. -/
inductive FilterSpecifier : Type
  | attributeFilter (attr : String) (value : Value) (op : String) : FilterSpecifier
  | relatedRecordsFilter (relation : String) (records : List RecordIdentity) (op : String) :
      FilterSpecifier
  | relatedRecordFilter (relation : String)
      (record : Sum RecordIdentity (List RecordIdentity)) (op : String) : FilterSpecifier
  | otherFilter (kind : String) : FilterSpecifier
deriving DecidableEq, Repr

/-- Identity membership test by type and id used inside the relatedRecords
filter. -/
def actualIncludes (l : List RecordIdentity) (e : RecordIdentity) : Bool :=
  l.any (fun a => a.id = e.id && a.type = e.type)

/-- applyFilter from query-operators.ts.  The attribute branch reads the
attribute (undefined when missing) and dispatches on the operator name,
strict equality for equal and relational comparison otherwise.  The
relational branches mirror the JS evaluation order, including which operand
shapes throw: reading length of null throws, a bare identity has undefined
length and merely fails the test, and the every/some callbacks only touch the
actual data when the expected list is non-empty. -/
def applyFilter (r : Record) : FilterSpecifier → Except QueryError Bool
  | .attributeFilter attr value op =>
      let actual := (r.attributes.bind (fun d => dictGet d attr)).getD .vundef
      if op = "equal" then .ok (jsStrictEq actual value)
      else if op = "gt" then .ok (jsGt actual value)
      else if op = "gte" then .ok (jsGe actual value)
      else if op = "lt" then .ok (jsLt actual value)
      else if op = "lte" then .ok (jsLe actual value)
      else .error (.queryExpressionParseError ("filter operation not recognized"))
  | .relatedRecordsFilter relation expected op =>
      let entry := relDataOf r relation
      let actual : RelData := match entry with
        | none => .many []
        | some d => d
      if op = "equal" then
        match actual with
        | .many l => .ok (l.length = expected.length && expected.all (actualIncludes l))
        | .single _ => .ok false
        | .nullData => .error (.typeError ("cannot read length of null"))
      else if op = "all" then
        match actual with
        | .many l => .ok (expected.all (actualIncludes l))
        | _ => if expected.isEmpty then .ok true
               else .error (.typeError ("some is not a function"))
      else if op = "some" then
        match actual with
        | .many l => .ok (expected.any (actualIncludes l))
        | _ => if expected.isEmpty then .ok false
               else .error (.typeError ("some is not a function"))
      else if op = "none" then
        match actual with
        | .many l => .ok (!expected.any (actualIncludes l))
        | _ => if expected.isEmpty then .ok true
               else .error (.typeError ("some is not a function"))
      else .error (.queryExpressionParseError ("filter operation not recognized"))
  | .relatedRecordFilter relation expected op =>
      let entry := relDataOf r relation
      if op = "equal" then
        match expected with
        | .inr l =>
            match entry with
            | none => .ok false
            | some (.single t) => .ok (l.any (fun e => t.type = e.type && t.id = e.id))
            | some (.many _) => .ok false
            | some .nullData =>
                if l.isEmpty then .ok false
                else .error (.typeError ("cannot read type of null"))
        | .inl e =>
            match entry with
            | none => .ok false
            | some (.single t) => .ok (t.type = e.type && t.id = e.id)
            | some (.many _) => .ok false
            | some .nullData => .error (.typeError ("cannot read type of null"))
      else .error (.queryExpressionParseError ("filter operation not recognized"))
  | .otherFilter _ => .ok false

/-- filterRecords from query-operators.ts: keep the records satisfying every
filter, testing the filters in order per record. -/
def filterRecords (records : List Record) (filters : List FilterSpecifier) :
    Except QueryError (List Record) :=
  records.filterM (fun r => filters.allM (fun f => applyFilter r f))

/-- Sort specifiers of findRecords; the kind and order are strings because
the source compares them textually (any order other than descending counts
as ascending). -/
structure SortSpecifier : Type where
  kind : String
  attr : String
  order : String
deriving DecidableEq, Repr

/-- The comparison values of one record under the sort specifiers: its
attribute values, undefined when missing; an unrecognized specifier kind
throws. -/
def comparisonValues (r : Record) (specs : List SortSpecifier) :
    Except QueryError (List Value) :=
  specs.mapM (fun sp =>
    if sp.kind = "attribute" then
      pure ((r.attributes.bind (fun d => dictGet d sp.attr)).getD .vundef)
    else throw (.queryExpressionParseError ("sort specifier not recognized")))

/-- The sort comparator from query-operators.ts: first specifier with a
strict relational difference decides, a none value (null or undefined)
sorting after defined values under ascending order and before them under
descending order. -/
def compareValues : List Value → List Value → List Int → Int
  | v1 :: t1, v2 :: t2, o :: os =>
      if jsLt v1 v2 then -o
      else if jsGt v1 v2 then o
      else if isNoneValue v1 && !isNoneValue v2 then o
      else if isNoneValue v2 && !isNoneValue v1 then -o
      else compareValues t1 t2 os
  | _, _, _ => 0

/-- Stable insertion into a list sorted by a boolean at-most relation. -/
def insertLe {α : Type} (le : α → α → Bool) (x : α) : List α → List α
  | [] => [x]
  | y :: t => if le y x then y :: insertLe le x t else x :: y :: t

/-- Stable insertion sort by a boolean at-most relation.  Array.sort is
specified only up to the comparator (a consistent comparator yields the
sorted order; tie order is implementation-defined, stable in modern
engines and stable here); no claim depends on tie order. -/
def sortByLe {α : Type} (le : α → α → Bool) (l : List α) : List α :=
  l.foldl (fun acc x => insertLe le x acc) []

/-- sortRecords from query-operators.ts: compute every record's comparison
values (throwing on an unrecognized specifier kind), then sort by the
comparator. -/
def sortRecords (records : List Record) (specs : List SortSpecifier) :
    Except QueryError (List Record) := do
  let tagged ← records.mapM (fun r => do
    let vs ← comparisonValues r specs
    pure (r, vs))
  let orders := specs.map (fun sp => if sp.order = "descending" then (-1 : Int) else 1)
  pure ((sortByLe (fun a b => compareValues a.2 b.2 orders ≤ 0) tagged).map Prod.fst)

/-- Page specifier of findRecords: optional offset and limit. -/
structure PageSpecifier : Type where
  offset : Option Nat := none
  limit : Option Nat := none
deriving DecidableEq, Repr

/-- paginateRecords from query-operators.ts: with a limit, the slice starting
at the offset (default 0) of length at most the limit; without a limit, a
QueryExpressionParseError. -/
def paginateRecords (records : List Record) (p : PageSpecifier) :
    Except QueryError (List Record) :=
  match p.limit with
  | some limit => .ok ((records.drop (p.offset.getD 0)).take limit)
  | none => .error (.queryExpressionParseError ("pagination options not recognized"))

/-- The findRecords expression: type with optional filter, sort and page. -/
structure FindRecords : Type where
  type : String
  filter : Option (List FilterSpecifier) := none
  sort : Option (List SortSpecifier) := none
  page : Option PageSpecifier := none
deriving DecidableEq, Repr

/-- The filter and sort stages of the findRecords operator, shared with the
paging stage below exactly as in the source control flow. -/
def findRecordsPrePage (s : CacheState) (e : FindRecords) : Except QueryError (List Record) := do
  let results := getRecords s e.type
  let results ←
    match e.filter with
    | some f => filterRecords results f
    | none => pure results
  match e.sort with
  | some sp => sortRecords results sp
  | none => pure results

/-- The findRecords query operator: all records of the type, filtered, sorted
and paginated when the respective specifiers are present. -/
def findRecords (s : CacheState) (e : FindRecords) : Except QueryError (List Record) := do
  let results ← findRecordsPrePage s e
  match e.page with
  | some p => paginateRecords results p
  | none => pure results

/-- The findRecord query operator: the record, or RecordNotFoundException
when absent. -/
def findRecord (s : CacheState) (i : RecordIdentity) : Except QueryError Record :=
  match getRecord s i with
  | some r => .ok r
  | none => .error (.recordNotFoundException i.type i.id)

/-- The findRelatedRecords query operator: map every identity in the
relationship data through getRecord, in order and without filtering, so a
dangling identity contributes an undefined entry.  When the stored data is a
bare identity the JS map call throws. -/
def findRelatedRecords (s : CacheState) (record : RecordIdentity) (relationship : String) :
    Except QueryError (List (Option Record)) :=
  match getRelatedRecords s record relationship with
  | .ids l => .ok (l.map (fun i => getRecord s i))
  | .singleId _ => .error (.typeError ("map is not a function"))

/-- The findRelatedRecord query operator: resolve the truthy hasOne target
through getRecord, null otherwise.  Non-identity data would key the record
store by undefined properties, which throws in the concrete Cache. -/
def findRelatedRecord (s : CacheState) (record : RecordIdentity) (relationship : String) :
    Except QueryError (Option Record) :=
  match getRelatedRecord s record relationship with
  | .single t => .ok (getRecord s t)
  | .nullData => .ok none
  | .many _ => .error (.typeError ("cannot key the record store by an array"))

/-! Concrete fixtures: the planetary schema of the end-to-end scenarios,
with an empty state whose buckets are pre-populated for the declared types
as at cache construction. -/

/-- Planet model: name, classification and order attributes, a remoteId key,
a hasMany moons relationship inverse to moon.planet and a hasOne solarSystem
relationship inverse to solarSystem.planets. -/
def planetModel : ModelDef :=
  { attributes := ["name", "classification", "order"],
    keys := ["remoteId"],
    relationships :=
      [("moons", { kind := .hasMany, model := "moon", inverse := some "planet" }),
       ("solarSystem",
        { kind := .hasOne, model := "solarSystem", inverse := some "planets" })] }

/-- Moon model: a hasOne planet relationship inverse to planet.moons. -/
def moonModel : ModelDef :=
  { relationships := [("planet", { kind := .hasOne, model := "planet", inverse := some "moons" })] }

/-- Solar-system model: a hasMany planets relationship inverse to
planet.solarSystem. -/
def solarSystemModel : ModelDef :=
  { relationships :=
      [("planets", { kind := .hasMany, model := "planet", inverse := some "solarSystem" })] }

/-- The test schema over the three models. -/
def testSchema : Schema :=
  ⟨[("planet", planetModel), ("moon", moonModel), ("solarSystem", solarSystemModel)]⟩

/-- The empty cache state for the test schema, buckets pre-populated. -/
def emptyState : CacheState :=
  { records := [("planet", []), ("moon", []), ("solarSystem", [])],
    inverseRelationships := [("planet", []), ("moon", []), ("solarSystem", [])] }

/-- The identity of the jupiter planet record. -/
def jupiterId : RecordIdentity := ⟨"planet", "jupiter"⟩

/-- The identity of the io moon record. -/
def ioId : RecordIdentity := ⟨"moon", "io"⟩

/-- The identity of the europa moon record. -/
def europaId : RecordIdentity := ⟨"moon", "europa"⟩

/-! Dictionary lemmas. -/

theorem dictGet_dictSet_self {α : Type} (d : Dict α) (k : String) (v : α) :
    dictGet (dictSet d k v) k = some v := by
  induction d with
  | nil => simp [dictSet, dictGet]
  | cons hd t ih =>
      obtain ⟨k', v'⟩ := hd
      by_cases hk : k' = k
      · simp [dictSet, hk, dictGet]
      · simp [dictSet, hk, dictGet, ih]

theorem dictGet_dictSet_ne {α : Type} (d : Dict α) (k k' : String) (v : α) (h : k ≠ k') :
    dictGet (dictSet d k v) k' = dictGet d k' := by
  induction d with
  | nil => simp [dictSet, dictGet, h]
  | cons hd t ih =>
      obtain ⟨k₀, v₀⟩ := hd
      by_cases hk : k₀ = k
      · subst hk
        simp [dictSet, dictGet, h]
      · simp [dictSet, hk, dictGet, ih]

theorem dictSet_dictSet {α : Type} (d : Dict α) (k : String) (a b : α) :
    dictSet (dictSet d k a) k b = dictSet d k b := by
  induction d with
  | nil => simp [dictSet]
  | cons hd t ih =>
      obtain ⟨k₀, v₀⟩ := hd
      by_cases hk : k₀ = k
      · simp [dictSet, hk]
      · simp [dictSet, hk, ih]

theorem dictSet_same {α : Type} (d : Dict α) (k : String) (v : α)
    (h : dictGet d k = some v) : dictSet d k v = d := by
  induction d with
  | nil => simp [dictGet] at h
  | cons hd t ih =>
      obtain ⟨k₀, v₀⟩ := hd
      by_cases hk : k₀ = k
      · subst hk
        simp [dictGet] at h
        simp [dictSet, h]
      · simp [dictGet, hk] at h
        simp [dictSet, hk, ih h]

theorem dictGet_dictRemove_self {α : Type} (d : Dict α) (k : String) :
    dictGet (dictRemove d k) k = none := by
  induction d with
  | nil => simp [dictRemove, dictGet]
  | cons hd t ih =>
      obtain ⟨k₀, v₀⟩ := hd
      by_cases hk : k₀ = k
      · simp [dictRemove, hk, ih]
      · simp [dictRemove, hk, dictGet, ih]

theorem dictGet_dictRemove_ne {α : Type} (d : Dict α) (k k' : String) (h : k ≠ k') :
    dictGet (dictRemove d k) k' = dictGet d k' := by
  induction d with
  | nil => simp [dictRemove]
  | cons hd t ih =>
      obtain ⟨k₀, v₀⟩ := hd
      by_cases hk : k₀ = k
      · subst hk
        simp [dictRemove, dictGet, h, ih]
      · simp [dictRemove, hk, dictGet, ih]

theorem dictGet_mem {α : Type} {d : Dict α} {k : String} {v : α}
    (h : dictGet d k = some v) : (k, v) ∈ d := by
  induction d with
  | nil => simp [dictGet] at h
  | cons hd t ih =>
      obtain ⟨k₀, v₀⟩ := hd
      by_cases hk : k₀ = k
      · subst hk
        simp [dictGet] at h
        simp [h]
      · simp [dictGet, hk] at h
        exact List.mem_cons_of_mem _ (ih h)

/-! Accessor lemmas. -/

theorem getRecord_setRecord_self (s : CacheState) (r : Record) :
    getRecord (setRecord s r) ⟨r.type, r.id⟩ = some r := by
  simp [getRecord, setRecord, dictGet_dictSet_self]

theorem getRecord_setRecord_ne (s : CacheState) (r : Record) (i : RecordIdentity)
    (h : ¬(i.type = r.type ∧ i.id = r.id)) :
    getRecord (setRecord s r) i = getRecord s i := by
  obtain ⟨ity, iid⟩ := i
  by_cases ht : r.type = ity
  · have hid : r.id ≠ iid := by
      intro hh
      exact h ⟨ht.symm, hh.symm⟩
    subst ht
    simp only [getRecord, setRecord, dictGet_dictSet_self, Option.some_bind]
    rw [dictGet_dictSet_ne _ _ _ _ hid]
    cases hb : dictGet s.records r.type with
    | none => simp [hb, dictGet]
    | some b => simp [hb]
  · simp only [getRecord, setRecord]
    rw [dictGet_dictSet_ne _ _ _ _ ht]

/-! Reduction lemmas for the Except monad, used to unfold the pipeline. -/

theorem except_bind_ok {ε α β : Type} (a : α) (f : α → Except ε β) :
    (Except.ok a >>= f : Except ε β) = f a := rfl

theorem except_bind_error {ε α β : Type} (e : ε) (f : α → Except ε β) :
    (Except.error e >>= f : Except ε β) = Except.error e := rfl

theorem except_map_ok {ε α β : Type} (g : α → β) (a : α) :
    (g <$> (Except.ok a : Except ε α)) = Except.ok (g a) := rfl

theorem except_map_error {ε α β : Type} (g : α → β) (e : ε) :
    (g <$> (Except.error e : Except ε α)) = Except.error e := rfl

theorem except_pure {ε α : Type} (a : α) : (pure a : Except ε α) = Except.ok a := rfl

/-! Claim theorems. -/

/-- C10: for every identity with no record in the store and every
relationship name, the convenience reads are total and never fail:
getRelatedRecord returns null and getRelatedRecords returns the empty
sequence; getRelatedRecord also returns null when a present record's hasOne
data is null, so the two cases are indistinguishable through this read. -/
theorem convenience_reads_total (s : CacheState) (i : RecordIdentity) (rel : String) :
    (getRecord s i = none →
      getRelatedRecord s i rel = .nullData ∧ getRelatedRecords s i rel = .ids []) ∧
    (∀ r, getRecord s i = some r → relDataOf r rel = some .nullData →
      getRelatedRecord s i rel = .nullData) := by
  constructor
  · intro h
    simp [getRelatedRecord, getRelatedRecords, h]
  · intro r hr hd
    simp [getRelatedRecord, hr, hd]

/-- A state holding a moon whose hasOne planet data is null. -/
def nullPlanetState : CacheState :=
  { records :=
      [("planet", []),
       ("moon", [("io",
         { type := "moon", id := "io",
           relationships := some [("planet", RelData.nullData)] })]),
       ("solarSystem", [])],
    inverseRelationships := [("planet", []), ("moon", []), ("solarSystem", [])] }

theorem convenience_reads_total_witness :
    (getRelatedRecord emptyState jupiterId "moons" = .nullData ∧
      getRelatedRecords emptyState jupiterId "moons" = .ids []) ∧
    getRelatedRecord nullPlanetState ioId "planet" = .nullData :=
  ⟨(convenience_reads_total emptyState jupiterId "moons").1 rfl,
   (convenience_reads_total nullPlanetState ioId "planet").2
     { type := "moon", id := "io", relationships := some [("planet", RelData.nullData)] }
     rfl rfl⟩

/-- C9: findRelatedRecords maps every identity of the hasMany data, in
order, through getRecord without filtering: the result has exactly one entry
per identity, entrywise equal to the getRecord result, so each dangling
identity contributes an undefined entry at its position rather than being
omitted or failing. -/
theorem findRelatedRecords_unfiltered (s : CacheState) (i : RecordIdentity) (rel : String)
    (r : Record) (ts : List RecordIdentity)
    (hr : getRecord s i = some r) (hd : relDataOf r rel = some (.many ts)) :
    findRelatedRecords s i rel = .ok (ts.map (fun t => getRecord s t)) ∧
    (ts.map (fun t => getRecord s t)).length = ts.length ∧
    (∀ j : Nat, (ts.map (fun t => getRecord s t))[j]? = (ts[j]?).map (fun t => getRecord s t)) ∧
    (∀ (j : Nat) (t : RecordIdentity), ts[j]? = some t → getRecord s t = none →
      (ts.map (fun t => getRecord s t))[j]? = some none) := by
  have hrr : getRelatedRecords s i rel = .ids ts := by
    simp [getRelatedRecords, hr, hd]
  refine ⟨?_, ?_, ?_, ?_⟩
  · simp [findRelatedRecords, hrr]
  · simp
  · intro j
    simp
  · intro j t hj hnone
    simp [hj, hnone]

/-- The jupiter record pointing at io and at a moon with no stored record. -/
def danglingJupiter : Record :=
  { type := "planet", id := "jupiter",
    relationships := some [("moons", RelData.many [ioId, ⟨"moon", "phantom"⟩])] }

/-- The io record of the dangling-moon state. -/
def danglingIo : Record := { type := "moon", id := "io" }

/-- A state where jupiter's moons data holds one resolvable and one dangling
identity. -/
def danglingState : CacheState :=
  { records :=
      [("planet", [("jupiter", danglingJupiter)]),
       ("moon", [("io", danglingIo)]),
       ("solarSystem", [])],
    inverseRelationships := [("planet", []), ("moon", []), ("solarSystem", [])] }

theorem findRelatedRecords_unfiltered_witness :
    findRelatedRecords danglingState jupiterId "moons" =
      .ok ([ioId, ⟨"moon", "phantom"⟩].map (fun t => getRecord danglingState t)) ∧
    ([ioId, ⟨"moon", "phantom"⟩].map (fun t => getRecord danglingState t))[1]? = some none :=
  ⟨(findRelatedRecords_unfiltered danglingState jupiterId "moons" danglingJupiter
      [ioId, ⟨"moon", "phantom"⟩] rfl rfl).1,
   (findRelatedRecords_unfiltered danglingState jupiterId "moons" danglingJupiter
      [ioId, ⟨"moon", "phantom"⟩] rfl rfl).2.2.2 1 ⟨"moon", "phantom"⟩ rfl rfl⟩

/-- C6: against a state where the record is absent and the value differs,
the inverse operator for replaceAttribute throws a TypeError destructuring
the undefined looked-up record instead of completing; the sibling replaceKey
operator, which destructures the operation identity, completes and returns
the inverse with the unset current value. -/
theorem replaceAttribute_inverse_throws :
    inverseTransform emptyState (.replaceAttribute jupiterId "name" (.vstr "Jupiter")) =
      .error (.typeError ("cannot destructure type of undefined")) ∧
    inverseTransform emptyState (.replaceKey jupiterId "remoteId" (.vstr "j")) =
      .ok (some (.replaceKey jupiterId "remoteId" .vundef)) :=
  ⟨rfl, rfl⟩

/-- A record carrying an array-valued attribute. -/
def arrayAttrRecord : Record :=
  { type := "planet", id := "jupiter",
    attributes := some [("vals", Value.varr [1, 2]), ("name", Value.vstr "Jupiter")] }

/-- C5 counterexample: the attribute filter with op equal rejects a record
whose attribute is structurally deep-equal to the expected array value, so
the comparison is not structural deep equality. -/
theorem attribute_equal_filter_cex :
    eqValue (.varr [1, 2]) (.varr [1, 2]) = true ∧
    applyFilter arrayAttrRecord (.attributeFilter "vals" (.varr [1, 2]) "equal") = .ok false :=
  ⟨rfl, rfl⟩

/-- C5 amended: the equal filter uses JS strict equality: a primitive
expected value is satisfied exactly by a structurally equal attribute, while
a non-primitive expected value (an array) never satisfies the filter, the
operands being distinct heap objects; gt, gte, lt and lte use the native
relational ordering. -/
theorem attribute_filter_strict_equality (r : Record) (a : String) (v : Value) :
    (v.isPrimitive = true →
      applyFilter r (.attributeFilter a v "equal") =
        .ok (decide ((r.attributes.bind (fun d => dictGet d a)).getD .vundef = v))) ∧
    (∀ l, v = .varr l → applyFilter r (.attributeFilter a v "equal") = .ok false) ∧
    applyFilter r (.attributeFilter a v "gt") =
      .ok (jsGt ((r.attributes.bind (fun d => dictGet d a)).getD .vundef) v) ∧
    applyFilter r (.attributeFilter a v "gte") =
      .ok (jsGe ((r.attributes.bind (fun d => dictGet d a)).getD .vundef) v) ∧
    applyFilter r (.attributeFilter a v "lt") =
      .ok (jsLt ((r.attributes.bind (fun d => dictGet d a)).getD .vundef) v) ∧
    applyFilter r (.attributeFilter a v "lte") =
      .ok (jsLe ((r.attributes.bind (fun d => dictGet d a)).getD .vundef) v) := by
  refine ⟨?_, ?_, by simp [applyFilter], by simp [applyFilter], by simp [applyFilter],
    by simp [applyFilter]⟩
  · intro hp
    simp only [applyFilter, if_pos rfl]
    cases hv : (r.attributes.bind (fun d => dictGet d a)).getD .vundef <;>
      cases v <;> simp_all [jsStrictEq, Value.isPrimitive]
  · intro l hl
    subst hl
    simp only [applyFilter, if_pos rfl]
    cases hv : (r.attributes.bind (fun d => dictGet d a)).getD .vundef <;>
      simp [jsStrictEq]

theorem attribute_filter_strict_equality_witness :
    applyFilter arrayAttrRecord (.attributeFilter "name" (.vstr "Jupiter") "equal") =
      .ok (decide ((arrayAttrRecord.attributes.bind
        (fun d => dictGet d "name")).getD .vundef = .vstr "Jupiter")) ∧
    applyFilter arrayAttrRecord (.attributeFilter "vals" (.varr [1, 2]) "equal") = .ok false :=
  ⟨(attribute_filter_strict_equality arrayAttrRecord "name" (.vstr "Jupiter")).1 rfl,
   (attribute_filter_strict_equality arrayAttrRecord "vals" (.varr [1, 2])).2.1 [1, 2] rfl⟩

/-- C7: applying removeFromRelatedRecords for an absent record through patch
completes without error, creates no record, leaves the record store and the
inverse index unchanged, pushes null as the primary datum, and a subsequent
findRecord still raises RecordNotFound. -/
theorem removeFromRelatedRecords_absent_noop (sch : Schema) (fuel : Nat) (s : CacheState)
    (i : RecordIdentity) (rel : String) (t : RecordIdentity)
    (habs : getRecord s i = none)
    (hval : schemaValidate sch (.removeFromRelatedRecords i rel t) = .ok ()) :
    patch sch (fuel + 1) s [.removeFromRelatedRecords i rel t] =
      .ok (s, { inverse := [], data := [none] }) ∧
    findRecord s i = .error (.recordNotFoundException i.type i.id) := by
  constructor
  · have hinv : inverseTransform s (.removeFromRelatedRecords i rel t) = .ok none := by
      simp [inverseTransform, relatedRecordsIncludeOne, getRelatedRecords, habs,
        recordIdentitySetIncludes, except_bind_ok, except_pure]
    simp [patch, applyOperations, List.foldlM, applyOperation, hval, hinv,
      except_bind_ok, except_map_ok, except_pure]
  · simp [findRecord, habs]

theorem removeFromRelatedRecords_absent_noop_witness :
    patch testSchema 8 emptyState [.removeFromRelatedRecords jupiterId "moons" ioId] =
      .ok (emptyState, { inverse := [], data := [none] }) ∧
    findRecord emptyState jupiterId =
      .error (.recordNotFoundException "planet" "jupiter") :=
  removeFromRelatedRecords_absent_noop testSchema 7 emptyState jupiterId "moons" ioId rfl rfl

/-- C3: when the inverse-patch operator returns nothing against the current
state (and validation passes), the pipeline skips the operation entirely:
the record store and inverse index are unchanged, the main operator and the
before, after, immediate and finally hooks contribute nothing, nothing is
appended to the inverse, and null is appended to the data exactly when the
operation is primary. -/
theorem pipeline_skips_without_inverse (sch : Schema) (fuel : Nat) (s : CacheState)
    (result : PatchResult) (primary : Bool) (op : RecordOperation)
    (hval : schemaValidate sch op = .ok ())
    (hinv : inverseTransform s op = .ok none) :
    applyOperation sch (fuel + 1) s result primary op =
      .ok (s, { result with data := result.data ++ (if primary then [none] else []) }) := by
  cases primary <;> simp [applyOperation, hval, hinv, except_bind_ok, except_pure]

/-- A state where jupiter's moons already contain io, making a repeated
addToRelatedRecords a no-op for the inverse operator. -/
def c3State : CacheState :=
  { records :=
      [("planet", [("jupiter",
        { type := "planet", id := "jupiter",
          relationships := some [("moons", RelData.many [ioId])] })]),
       ("moon", []),
       ("solarSystem", [])],
    inverseRelationships := [("planet", []), ("moon", []), ("solarSystem", [])] }

theorem pipeline_skips_without_inverse_witness :
    applyOperation testSchema 8 c3State ⟨[], []⟩ true
      (.addToRelatedRecords jupiterId "moons" ioId) =
      .ok (c3State, { inverse := [], data := [none] }) := by
  have h := pipeline_skips_without_inverse testSchema 7 c3State ⟨[], []⟩ true
    (.addToRelatedRecords jupiterId "moons" ioId) rfl rfl
  simpa using h

/-- C8: findRecords with a page specifier raises QueryExpressionParseError
when the page carries no limit; with a limit present it returns the slice of
the filtered, sorted sequence starting at the offset (default 0) of length
at most the limit. -/
theorem findRecords_pagination (s : CacheState) (e : FindRecords) (p : PageSpecifier)
    (rs : List Record) (hpage : e.page = some p)
    (hpre : findRecordsPrePage s e = .ok rs) :
    (p.limit = none →
      findRecords s e =
        .error (.queryExpressionParseError ("pagination options not recognized"))) ∧
    (∀ l : Nat, p.limit = some l →
      findRecords s e = .ok ((rs.drop (p.offset.getD 0)).take l)) := by
  constructor
  · intro hl
    simp [findRecords, hpre, hpage, paginateRecords, hl, except_bind_ok]
  · intro l hl
    simp [findRecords, hpre, hpage, paginateRecords, hl, except_bind_ok]

/-- A planet record carrying only an order attribute. -/
def orderPlanet (idv : String) (n : Int) : Record :=
  { type := "planet", id := idv, attributes := some [("order", Value.vnum n)] }

/-- Three planets with order attributes 5, 1 and 3. -/
def sortState : CacheState :=
  { records :=
      [("planet",
        [("p1", orderPlanet "p1" 5), ("p2", orderPlanet "p2" 1), ("p3", orderPlanet "p3" 3)]),
       ("moon", []),
       ("solarSystem", [])],
    inverseRelationships := [("planet", []), ("moon", []), ("solarSystem", [])] }

/-- The three planets in ascending order of the order attribute. -/
def sortedPlanets : List Record :=
  [orderPlanet "p2" 1, orderPlanet "p3" 3, orderPlanet "p1" 5]

/-- findRecords over the planets sorted ascending by order, paged with
offset 1 and limit 1. -/
def pagedExpr : FindRecords :=
  { type := "planet",
    sort := some [{ kind := "attribute", attr := "order", order := "ascending" }],
    page := some { offset := some 1, limit := some 1 } }

/-- The same query with a page specifier lacking a limit. -/
def noLimitExpr : FindRecords :=
  { type := "planet",
    sort := some [{ kind := "attribute", attr := "order", order := "ascending" }],
    page := some { offset := some 1 } }

theorem findRecords_pagination_witness :
    findRecords sortState pagedExpr = .ok ((sortedPlanets.drop 1).take 1) ∧
    findRecords sortState noLimitExpr =
      .error (.queryExpressionParseError ("pagination options not recognized")) :=
  ⟨(findRecords_pagination sortState pagedExpr { offset := some 1, limit := some 1 }
      sortedPlanets rfl (by rfl)).2 1 rfl,
   (findRecords_pagination sortState noLimitExpr { offset := some 1 }
      sortedPlanets rfl (by rfl)).1 rfl⟩

/-! Merge lemmas for C4. -/

theorem dictGet_eq_none_of_not_mem {α : Type} (d : Dict α) (k : String)
    (h : ¬ k ∈ dictKeys d) : dictGet d k = none := by
  induction d with
  | nil => simp [dictGet]
  | cons hd t ih =>
      obtain ⟨k₀, v₀⟩ := hd
      simp only [dictKeys, List.map_cons, List.mem_cons, not_or] at h
      rw [dictGet, if_neg (fun hh => h.1 hh.symm)]
      exact ih h.2

theorem dictGet_dictMerge {α : Type} (a b : Dict α) (hb : dictWF b) (f : String) :
    dictGet (dictMerge a b) f = (dictGet b f).or (dictGet a f) := by
  induction b generalizing a with
  | nil => simp [dictMerge, dictGet]
  | cons hd t ih =>
      obtain ⟨k, v⟩ := hd
      simp only [dictWF, dictKeys, List.map_cons, List.nodup_cons] at hb
      have hstep : dictMerge a ((k, v) :: t) = dictMerge (dictSet a k v) t := rfl
      rw [hstep, ih (dictSet a k v) hb.2]
      by_cases hf : k = f
      · subst hf
        rw [dictGet_eq_none_of_not_mem t k hb.1, dictGet_dictSet_self]
        simp [dictGet]
      · rw [dictGet_dictSet_ne _ _ _ _ hf]
        simp [dictGet, hf]

theorem mergeGrouping_lookup {α : Type} (c u : Option (Dict α))
    (hu : dictWF (u.getD [])) (f : String) :
    (mergeGrouping c u).bind (fun d => dictGet d f) =
      ((u.bind (fun d => dictGet d f)).or (c.bind (fun d => dictGet d f))) := by
  cases c with
  | none =>
      cases u with
      | none => simp [mergeGrouping]
      | some ud => simp [mergeGrouping]
  | some cd =>
      cases u with
      | none => simp [mergeGrouping]
      | some ud =>
          simp only [Option.getD_some] at hu
          simp [mergeGrouping, dictGet_dictMerge cd ud hu f]

/-- C4: the replaceRecord patch operator stores the per-grouping shallow
merge of the incoming record into the existing one: within each of
attributes, keys and relationships every field mentioned by the incoming
record overrides and every other existing field is preserved; when no record
exists the incoming record is stored verbatim. -/
theorem replaceRecord_shallow_merge (s : CacheState) (r : Record)
    (hwk : dictWF (r.keys.getD [])) (hwa : dictWF (r.attributes.getD []))
    (hwr : dictWF (r.relationships.getD [])) :
    (getRecord s ⟨r.type, r.id⟩ = none →
      patchOperator s (.replaceRecord r) = .ok (setRecord s r, some r) ∧
      getRecord (setRecord s r) ⟨r.type, r.id⟩ = some r) ∧
    (∀ cur, getRecord s ⟨r.type, r.id⟩ = some cur → cur.type = r.type → cur.id = r.id →
      patchOperator s (.replaceRecord r) =
        .ok (setRecord s (mergeRecords (some cur) r), some (mergeRecords (some cur) r)) ∧
      getRecord (setRecord s (mergeRecords (some cur) r)) ⟨r.type, r.id⟩ =
        some (mergeRecords (some cur) r) ∧
      (∀ f, (mergeRecords (some cur) r).keys.bind (fun d => dictGet d f) =
        ((r.keys.bind (fun d => dictGet d f)).or (cur.keys.bind (fun d => dictGet d f)))) ∧
      (∀ f, (mergeRecords (some cur) r).attributes.bind (fun d => dictGet d f) =
        ((r.attributes.bind (fun d => dictGet d f)).or
          (cur.attributes.bind (fun d => dictGet d f)))) ∧
      (∀ f, (mergeRecords (some cur) r).relationships.bind (fun d => dictGet d f) =
        ((r.relationships.bind (fun d => dictGet d f)).or
          (cur.relationships.bind (fun d => dictGet d f))))) := by
  constructor
  · intro habs
    constructor
    · simp [patchOperator, habs, mergeRecords]
    · exact getRecord_setRecord_self s r
  · intro cur hcur hty hid
    have hm : mergeRecords (some cur) r =
        { type := cur.type, id := cur.id,
          keys := mergeGrouping cur.keys r.keys,
          attributes := mergeGrouping cur.attributes r.attributes,
          relationships := mergeGrouping cur.relationships r.relationships } := rfl
    refine ⟨by simp [patchOperator, hcur], ?_, ?_, ?_, ?_⟩
    · have hcoords : (⟨r.type, r.id⟩ : RecordIdentity) =
          ⟨(mergeRecords (some cur) r).type, (mergeRecords (some cur) r).id⟩ := by
        simp [hm, hty, hid]
      rw [hcoords]
      exact getRecord_setRecord_self s (mergeRecords (some cur) r)
    · intro f
      exact mergeGrouping_lookup cur.keys r.keys hwk f
    · intro f
      exact mergeGrouping_lookup cur.attributes r.attributes hwa f
    · intro f
      exact mergeGrouping_lookup cur.relationships r.relationships hwr f

/-- The existing jupiter record of the merge scenario: a name attribute and
a moons relationship. -/
def mergeJupiterCurrent : Record :=
  { type := "planet", id := "jupiter",
    attributes := some [("name", Value.vstr "Jupiter")],
    relationships := some [("moons", RelData.many [ioId])] }

/-- The incoming replacement: a classification attribute and a solarSystem
relationship. -/
def mergeJupiterIncoming : Record :=
  { type := "planet", id := "jupiter",
    attributes := some [("classification", Value.vstr "gas giant")],
    relationships := some [("solarSystem", RelData.single ⟨"solarSystem", "ss1"⟩)] }

/-- The state holding the existing jupiter record. -/
def mergeState : CacheState :=
  { records := [("planet", [("jupiter", mergeJupiterCurrent)]), ("moon", []), ("solarSystem", [])],
    inverseRelationships := [("planet", []), ("moon", []), ("solarSystem", [])] }

/-! Helper lemmas for the single-operation pipeline. -/

theorem recordIdentity_eta (i : RecordIdentity) : (⟨i.type, i.id⟩ : RecordIdentity) = i := rfl

theorem patch_nil (sch : Schema) (fuel : Nat) (s : CacheState) :
    patch sch fuel s [] = .ok (s, ⟨[], []⟩) := by
  simp [patch, applyOperations, List.foldlM, except_bind_ok, except_pure]

theorem patch_single (sch : Schema) (fuel : Nat) (s : CacheState) (op : RecordOperation) :
    patch sch fuel s [op] =
      (applyOperation sch fuel s ⟨[], []⟩ true op).map
        (fun p => (p.1, { inverse := p.2.inverse.reverse, data := p.2.data })) := by
  cases h : applyOperation sch fuel s ⟨[], []⟩ true op with
  | ok p =>
      simp [patch, applyOperations, List.foldlM, h, except_bind_ok, except_map_ok, except_pure,
        Except.map]
  | error e =>
      simp [patch, applyOperations, List.foldlM, h, except_bind_error, except_map_error,
        Except.map]

theorem setRecord_setRecord (s : CacheState) (a b : Record)
    (hty : a.type = b.type) (hid : a.id = b.id) :
    setRecord (setRecord s a) b = setRecord s b := by
  simp only [setRecord, ← hty, ← hid, dictGet_dictSet_self, Option.getD_some, dictSet_dictSet]

theorem setRecord_same (s : CacheState) (r : Record)
    (h : getRecord s ⟨r.type, r.id⟩ = some r) : setRecord s r = s := by
  simp only [getRecord] at h
  cases hb : dictGet s.records r.type with
  | none => rw [hb] at h; simp at h
  | some bucket =>
      rw [hb] at h
      simp only [Option.some_bind] at h
      simp only [setRecord, hb, Option.getD_some]
      rw [dictSet_same bucket r.id r h, dictSet_same s.records r.type bucket hb]

/-- The record written by the replaceKey patch operator: the existing or
synthesized record with the key set. -/
def replaceKeyRecord (s : CacheState) (i : RecordIdentity) (k : String) (v : Value) : Record :=
  let record := recordOrSynthesized s i
  { record with keys := some (dictSet (record.keys.getD []) k v) }

/-- The pipeline on a single replaceKey operation with a declared type:
either the key already holds the value and everything is skipped, or the
record with the key set is stored and the inverse carrying the current
(possibly unset) value is recorded. -/
theorem applyOperation_replaceKey (sch : Schema) (fuel : Nat) (s : CacheState)
    (res : PatchResult) (primary : Bool) (i : RecordIdentity) (k : String) (v : Value)
    (hmodel : (sch.getModel i.type).isSome = true) :
    applyOperation sch (fuel + 1) s res primary (.replaceKey i k v) =
      (if eqValueOpt ((getRecord s i).bind (fun r => r.keys.bind (fun d => dictGet d k))) v then
        .ok (s, { res with data := res.data ++ (if primary then [none] else []) })
      else
        .ok (setRecord s (replaceKeyRecord s i k v),
          { inverse := res.inverse ++
              [.replaceKey i k
                (((getRecord s i).bind
                  (fun r => r.keys.bind (fun d => dictGet d k))).getD .vundef)],
            data := res.data ++ (if primary then [some (replaceKeyRecord s i k v)] else []) })) := by
  have hval : schemaValidate sch (.replaceKey i k v) = .ok () := by
    simp [schemaValidate, referencedIdentities, hmodel, except_pure]
  by_cases hc :
      eqValueOpt ((getRecord s i).bind (fun r => r.keys.bind (fun d => dictGet d k))) v
  · rw [if_pos hc]
    cases primary <;>
      simp [applyOperation, hval, inverseTransform, hc, except_bind_ok, except_pure]
  · rw [if_neg hc]
    cases primary <;>
      simp [applyOperation, hval, inverseTransform, hc, consistencyAfter, integrityAfter,
        patchOperator, integrityFinally, replaceKeyRecord, List.foldlM,
        except_bind_ok, except_pure, recordIdentity_eta]

/-- The record written by the replaceKey counterexample run. -/
def cexRecord1 : Record :=
  { type := "planet", id := "jupiter", keys := some [("remoteId", Value.vstr "j")] }

/-- The state after the forward replaceKey patch of the counterexample. -/
def cexState1 : CacheState :=
  { records := [("planet", [("jupiter", cexRecord1)]), ("moon", []), ("solarSystem", [])],
    inverseRelationships := [("planet", []), ("moon", []), ("solarSystem", [])] }

/-- The skeleton record left behind by undoing the counterexample patch. -/
def cexRecord2 : Record :=
  { type := "planet", id := "jupiter", keys := some [("remoteId", Value.vundef)] }

/-- The state after applying the returned inverse of the counterexample. -/
def cexState2 : CacheState :=
  { records := [("planet", [("jupiter", cexRecord2)]), ("moon", []), ("solarSystem", [])],
    inverseRelationships := [("planet", []), ("moon", []), ("solarSystem", [])] }

/-- C1 counterexample: a single replaceKey patch against the empty store
completes and produces an inverse; applying that inverse to the post-state
leaves a skeleton record holding the key unset, so the resulting state is
distinguishable from the original through getRecord (and hence findRecord),
refuting indistinguishability through every read. -/
theorem inverse_soundness_cex :
    patch testSchema 8 emptyState [.replaceKey jupiterId "remoteId" (.vstr "j")] =
      .ok (cexState1,
        { inverse := [.replaceKey jupiterId "remoteId" .vundef],
          data := [some cexRecord1] }) ∧
    patch testSchema 8 cexState1 [.replaceKey jupiterId "remoteId" .vundef] =
      .ok (cexState2,
        { inverse := [.replaceKey jupiterId "remoteId" (.vstr "j")],
          data := [some cexRecord2] }) ∧
    getRecord emptyState jupiterId = none ∧
    getRecord cexState2 jupiterId = some cexRecord2 :=
  ⟨by rfl, by rfl, rfl, rfl⟩

/-- C1 amended: applying the returned inverse restores the pre-state only up
to skeleton records: a patch writing through an absent identity leaves a
skeleton with the written fields unset (see the counterexample), while for a
single replaceKey whose target record exists, is stored under its own
identity, and already carries the key, applying the returned inverse to the
post-state restores the pre-state exactly, so every read agrees. -/
theorem replaceKey_inverse_roundtrip (sch : Schema) (fuel : Nat) (s : CacheState)
    (i : RecordIdentity) (k : String) (v kv : Value) (r : Record)
    (hmodel : (sch.getModel i.type).isSome = true)
    (hr : getRecord s i = some r) (hty : r.type = i.type) (hid : r.id = i.id)
    (hks : dictGet (r.keys.getD []) k = some kv) :
    ∀ s1 res1, patch sch (fuel + 1) s [.replaceKey i k v] = .ok (s1, res1) →
      ∃ res2, patch sch (fuel + 1) s1 res1.inverse = .ok (s, res2) := by
  intro s1 res1 hrun
  obtain ⟨ks, hkeq⟩ : ∃ ks, r.keys = some ks := by
    cases hk : r.keys with
    | none => rw [hk] at hks; simp [dictGet] at hks
    | some ks => exact ⟨ks, rfl⟩
  rw [hkeq] at hks
  simp only [Option.getD_some] at hks
  have hcur : (getRecord s i).bind (fun rr => rr.keys.bind (fun d => dictGet d k)) = some kv := by
    rw [hr, Option.some_bind, hkeq, Option.some_bind]
    exact hks
  rw [patch_single, applyOperation_replaceKey sch fuel s ⟨[], []⟩ true i k v hmodel, hcur] at hrun
  by_cases hkv : eqValueOpt (some kv) v
  · rw [if_pos hkv] at hrun
    simp only [Except.map, Except.ok.injEq, Prod.mk.injEq] at hrun
    obtain ⟨hs1, hres1⟩ := hrun
    subst hs1
    rw [← hres1]
    exact ⟨⟨[], []⟩, patch_nil sch (fuel + 1) s⟩
  · rw [if_neg hkv] at hrun
    simp only [Except.map, Except.ok.injEq, Prod.mk.injEq] at hrun
    obtain ⟨hs1, hres1⟩ := hrun
    have hrk : replaceKeyRecord s i k v = { r with keys := some (dictSet ks k v) } := by
      simp [replaceKeyRecord, recordOrSynthesized, hr, hkeq]
    have hv_ne : eqValue kv v = false := by
      simpa [eqValueOpt] using hkv
    -- the state and inverse of the forward run
    have hs1' : s1 = setRecord s { r with keys := some (dictSet ks k v) } := by
      rw [← hs1, hrk]
    have hinv1 : res1.inverse = [.replaceKey i k kv] := by
      rw [← hres1]
      simp
    rw [hinv1, patch_single, applyOperation_replaceKey sch fuel s1 ⟨[], []⟩ true i k kv hmodel]
    have hget1 : getRecord s1 i = some { r with keys := some (dictSet ks k v) } := by
      rw [hs1']
      have hcoords : i = (⟨r.type, r.id⟩ : RecordIdentity) := by
        rw [hty, hid]
      rw [hcoords]
      exact getRecord_setRecord_self s { r with keys := some (dictSet ks k v) }
    have hcur2 : (getRecord s1 i).bind (fun rr => rr.keys.bind (fun d => dictGet d k)) =
        some v := by
      rw [hget1]
      simp [dictGet_dictSet_self]
    rw [hcur2]
    have hvkv : eqValueOpt (some v) kv = false := by
      simp only [eqValueOpt, Option.getD_some, eqValue] at hv_ne ⊢
      simp only [decide_eq_false_iff_not] at hv_ne
      simp only [decide_eq_false_iff_not]
      exact fun hh => hv_ne hh.symm
    rw [if_neg (by rw [hvkv]; exact Bool.false_ne_true)]
    have hrk2 : replaceKeyRecord s1 i k kv = r := by
      simp only [replaceKeyRecord, recordOrSynthesized, hget1, Option.getD_some,
        dictSet_dictSet]
      rw [dictSet_same ks k kv hks, ← hkeq]
    rw [hrk2]
    have hfinal : setRecord s1 r = s := by
      rw [hs1', setRecord_setRecord s
        { type := r.type, id := r.id, keys := some (dictSet ks k v),
          attributes := r.attributes, relationships := r.relationships } r rfl rfl]
      apply setRecord_same
      have hcoords : (⟨r.type, r.id⟩ : RecordIdentity) = i := by
        rw [hty, hid]
      rw [hcoords]
      exact hr
    rw [hfinal]
    exact ⟨_, rfl⟩

/-- The existing jupiter record of the round-trip witness. -/
def c1WitJupiter : Record :=
  { type := "planet", id := "jupiter", keys := some [("remoteId", Value.vstr "j")] }

/-- The witness state holding that record. -/
def c1WitState : CacheState :=
  { records := [("planet", [("jupiter", c1WitJupiter)]), ("moon", []), ("solarSystem", [])],
    inverseRelationships := [("planet", []), ("moon", []), ("solarSystem", [])] }

/-- The record held by the post-state of the forward witness patch. -/
def c1WitRecord1 : Record :=
  { type := "planet", id := "jupiter", keys := some [("remoteId", Value.vstr "x")] }

/-- The post-state of the forward witness patch. -/
def c1WitState1 : CacheState :=
  { records :=
      [("planet", [("jupiter", c1WitRecord1)]), ("moon", []), ("solarSystem", [])],
    inverseRelationships := [("planet", []), ("moon", []), ("solarSystem", [])] }

theorem replaceKey_inverse_roundtrip_witness :
    ∃ res2, patch testSchema 8 c1WitState1 [.replaceKey jupiterId "remoteId" (.vstr "j")] =
      .ok (c1WitState, res2) :=
  replaceKey_inverse_roundtrip testSchema 7 c1WitState jupiterId "remoteId" (.vstr "x")
    (.vstr "j") c1WitJupiter rfl rfl rfl rfl rfl c1WitState1
    { inverse := [.replaceKey jupiterId "remoteId" (.vstr "j")],
      data := [some c1WitRecord1] }
    (by rfl)

theorem replaceRecord_shallow_merge_witness :
    patchOperator mergeState (.replaceRecord mergeJupiterIncoming) =
      .ok (setRecord mergeState (mergeRecords (some mergeJupiterCurrent) mergeJupiterIncoming),
        some (mergeRecords (some mergeJupiterCurrent) mergeJupiterIncoming)) ∧
    (mergeRecords (some mergeJupiterCurrent) mergeJupiterIncoming).attributes.bind
        (fun d => dictGet d "name") = some (.vstr "Jupiter") ∧
    (mergeRecords (some mergeJupiterCurrent) mergeJupiterIncoming).attributes.bind
        (fun d => dictGet d "classification") = some (.vstr "gas giant") ∧
    (mergeRecords (some mergeJupiterCurrent) mergeJupiterIncoming).relationships.bind
        (fun d => dictGet d "moons") = some (.many [ioId]) ∧
    (mergeRecords (some mergeJupiterCurrent) mergeJupiterIncoming).relationships.bind
        (fun d => dictGet d "solarSystem") = some (.single ⟨"solarSystem", "ss1"⟩) := by
  have h := (replaceRecord_shallow_merge mergeState mergeJupiterIncoming
    (by decide) (by decide) (by decide)).2 mergeJupiterCurrent rfl rfl rfl
  exact ⟨h.1, by rw [h.2.2.2.1 "name"]; rfl, by rw [h.2.2.2.1 "classification"]; rfl,
    by rw [h.2.2.2.2 "moons"]; rfl, by rw [h.2.2.2.2 "solarSystem"]; rfl⟩

/-! Notions for referential integrity on removal. -/

/-- The relationship data names the identity (the comparison the filter of
removeFromRelatedRecords uses, component-wise). -/
def mentionsId (d : RelData) (x : RecordIdentity) : Bool :=
  match d with
  | .single t => t.type = x.type && t.id = x.id
  | .many ts => ts.any (fun t => t.type = x.type && t.id = x.id)
  | .nullData => false

/-- A stored record points at x through a relationship whose schema
declaration names an inverse. -/
def hasPtr (sch : Schema) (s : CacheState) (x owner : RecordIdentity) (rel : String) : Prop :=
  ∃ r d rdef, getRecord s owner = some r ∧ relDataOf r rel = some d ∧
    mentionsId d x = true ∧ relationshipDefOf sch r.type rel = some rdef ∧
    rdef.inverse.isSome = true

/-- Invariant I1: every bucket entry is stored under its own type and id. -/
def i1Holds (s : CacheState) : Prop :=
  ∀ tb ∈ s.records, ∀ ir ∈ tb.2, ir.2.type = tb.1 ∧ ir.2.id = ir.1

instance (s : CacheState) : Decidable (i1Holds s) := by
  unfold i1Holds; infer_instance

/-- Whether the relationship declaration of a type names an inverse. -/
def relDeclInv (sch : Schema) (type rel : String) : Bool :=
  match relationshipDefOf sch type rel with
  | some rdef => rdef.inverse.isSome
  | none => false

/-- The forward half of invariant I4 relative to x: every inverse-declared
pointer at x stored in the records has a matching back-ref in the inverse
index at x. -/
def i4Forward (sch : Schema) (s : CacheState) (x : RecordIdentity) : Prop :=
  ∀ tb ∈ s.records, ∀ ir ∈ tb.2, ∀ kv ∈ (ir.2.relationships.getD []),
    mentionsId kv.2 x = true → relDeclInv sch ir.2.type kv.1 = true →
    (⟨⟨tb.1, ir.1⟩, kv.1⟩ : RelatedRecordIdentity) ∈ getInverselyRelatedRecords s x

instance (sch : Schema) (s : CacheState) (x : RecordIdentity) :
    Decidable (i4Forward sch s x) := by
  unfold i4Forward; infer_instance

/-- The operations the removal cascade executes: hasMany removals and hasOne
null assignments.  They never introduce a pointer anywhere. -/
def cleanupOp : RecordOperation → Prop
  | .removeFromRelatedRecords _ _ _ => True
  | .replaceRelatedRecord _ _ d => d = .nullData
  | _ => False

/-- The cleanup operations that clear every pointer at x held by their own
record and relationship pair. -/
def clearsX (x : RecordIdentity) : RecordOperation → Prop
  | .removeFromRelatedRecords _ _ t => t = x
  | .replaceRelatedRecord _ _ d => d = .nullData
  | _ => False

/-- The relationship name a relationship-level operation names. -/
def RecordOperation.relationshipName : RecordOperation → String
  | .addToRelatedRecords _ rel _ => rel
  | .removeFromRelatedRecords _ rel _ => rel
  | .replaceRelatedRecords _ rel _ => rel
  | .replaceRelatedRecord _ rel _ => rel
  | _ => ""

/-- The three conditions preserved by the removal cascade: I1, x absent from
the store, and no back-refs recorded for x. -/
structure CleanInv (sch : Schema) (x : RecordIdentity) (s : CacheState) : Prop where
  i1 : i1Holds s
  absent : getRecord s x = none
  norefs : getInverselyRelatedRecords s x = []

/-! Preservation lemmas. -/

theorem records_removeInverselyRelatedRecord (s : CacheState) (i : RecordIdentity)
    (rel : RelatedRecordIdentity) : (removeInverselyRelatedRecord s i rel).records = s.records := by
  unfold removeInverselyRelatedRecord
  cases h : (dictGet s.inverseRelationships i.type).bind (fun b => dictGet b i.id) <;> rfl

theorem records_addInverselyRelatedRecord (s : CacheState) (i : RecordIdentity)
    (rel : RelatedRecordIdentity) : (addInverselyRelatedRecord s i rel).records = s.records := rfl

theorem records_removeInverseRelationships (s : CacheState) (i : RecordIdentity) :
    (removeInverseRelationships s i).records = s.records := rfl

theorem inverseRelationships_setRecord (s : CacheState) (r : Record) :
    (setRecord s r).inverseRelationships = s.inverseRelationships := rfl

theorem inverseRelationships_removeRecordPrim (s : CacheState) (i : RecordIdentity) :
    (removeRecordPrim s i).1.inverseRelationships = s.inverseRelationships := by
  unfold removeRecordPrim
  cases h : getRecord s i <;> rfl

theorem getRecord_of_records_eq (s s' : CacheState) (h : s'.records = s.records)
    (i : RecordIdentity) : getRecord s' i = getRecord s i := by
  simp [getRecord, h]

theorem getInv_of_index_eq (s s' : CacheState)
    (h : s'.inverseRelationships = s.inverseRelationships) (i : RecordIdentity) :
    getInverselyRelatedRecords s' i = getInverselyRelatedRecords s i := by
  simp [getInverselyRelatedRecords, h]

theorem hasPtr_of_records_eq (sch : Schema) (s s' : CacheState) (h : s'.records = s.records)
    (x owner : RecordIdentity) (rel : String) :
    hasPtr sch s' x owner rel ↔ hasPtr sch s x owner rel := by
  unfold hasPtr
  rw [getRecord_of_records_eq s s' h]

theorem i1_of_records_eq (s s' : CacheState) (h : s'.records = s.records)
    (hi : i1Holds s) : i1Holds s' := by
  unfold i1Holds at hi ⊢
  rw [h]
  exact hi

theorem mem_dictSet {α : Type} {d : Dict α} {k : String} {v : α} {e : String × α}
    (h : e ∈ dictSet d k v) : e ∈ d ∨ e = (k, v) := by
  induction d with
  | nil => simp [dictSet] at h; simp [h]
  | cons hd t ih =>
      obtain ⟨k₀, v₀⟩ := hd
      by_cases hk : k₀ = k
      · simp only [dictSet, if_pos hk] at h
        rcases List.mem_cons.mp h with h1 | h2
        · right; rw [h1, hk]
        · left; exact List.mem_cons_of_mem _ h2
      · simp only [dictSet, if_neg hk] at h
        rcases List.mem_cons.mp h with h1 | h2
        · left; rw [h1]; exact List.mem_cons_self _ _
        · rcases ih h2 with h3 | h4
          · left; exact List.mem_cons_of_mem _ h3
          · right; exact h4

theorem i1_setRecord (s : CacheState) (r : Record) (h : i1Holds s) :
    i1Holds (setRecord s r) := by
  intro tb htb ir hir
  simp only [setRecord] at htb
  rcases mem_dictSet htb with hmem | heq
  · exact h tb hmem ir hir
  · subst heq
    rcases mem_dictSet hir with hmem2 | heq2
    · have hb : dictGet s.records r.type = some ((dictGet s.records r.type).getD []) := by
        cases hg : dictGet s.records r.type with
        | none => simp [hg] at hmem2
        | some b => simp [hg]
      exact h (r.type, (dictGet s.records r.type).getD []) (dictGet_mem hb) ir hmem2
    · subst heq2
      exact ⟨rfl, rfl⟩

theorem norefs_removeInverselyRelatedRecord (s : CacheState) (t : RecordIdentity)
    (rel : RelatedRecordIdentity) (x : RecordIdentity)
    (h : getInverselyRelatedRecords s x = []) :
    getInverselyRelatedRecords (removeInverselyRelatedRecord s t rel) x = [] := by
  unfold removeInverselyRelatedRecord
  cases he : (dictGet s.inverseRelationships t.type).bind (fun b => dictGet b t.id) with
  | none => exact h
  | some rels =>
      by_cases hty : t.type = x.type
      · by_cases hid : t.id = x.id
        · have hrels : rels = [] := by
            have : getInverselyRelatedRecords s t = [] := by
              have : t = x := by
                obtain ⟨t1, t2⟩ := t
                obtain ⟨x1, x2⟩ := x
                simp only at hty hid
                rw [hty, hid]
              rw [this]
              exact h
            unfold getInverselyRelatedRecords at this
            rw [he] at this
            simp at this
            exact this
          subst hrels
          simp only [getInverselyRelatedRecords]
          rw [← hty, ← hid, dictGet_dictSet_self]
          simp [dictGet_dictSet_self]
        · simp only [getInverselyRelatedRecords]
          rw [← hty, dictGet_dictSet_self]
          simp only [Option.some_bind]
          rw [dictGet_dictSet_ne _ _ _ _ hid]
          unfold getInverselyRelatedRecords at h
          rw [hty] at he ⊢
          cases hg : dictGet s.inverseRelationships x.type with
          | none => simp [hg] at he
          | some b =>
              rw [hg] at h
              simp only [Option.some_bind] at h
              simp [hg, h]
      · simp only [getInverselyRelatedRecords]
        rw [dictGet_dictSet_ne _ _ _ _ hty]
        unfold getInverselyRelatedRecords at h
        exact h

theorem except_throw {ε α : Type} (e : ε) : (throw e : Except ε α) = Except.error e := rfl

theorem except_bind_ok_inv {ε α β : Type} {m : Except ε α} {f : α → Except ε β} {b : β}
    (h : (m >>= f) = .ok b) : ∃ a, m = .ok a ∧ f a = .ok b := by
  cases m with
  | ok a => exact ⟨a, rfl, h⟩
  | error e => simp [except_bind_error] at h

theorem except_ok_of_pure {ε α : Type} {a b : α}
    (h : (pure a : Except ε α) = .ok b) : a = b := by
  simpa [except_pure] using h

theorem mapM_ok_mem {ε α β : Type} (f : α → Except ε β) :
    ∀ (L : List α) (L' : List β), L.mapM f = .ok L' →
      ∀ a ∈ L, ∃ b ∈ L', f a = .ok b := by
  intro L
  induction L with
  | nil =>
      intro L' h a ha
      simp at ha
  | cons hd t ih =>
      intro L' h a ha
      rw [List.mapM_cons] at h
      cases hf : f hd with
      | error e => rw [hf] at h; simp [except_bind_error] at h
      | ok b =>
          rw [hf] at h
          simp only [except_bind_ok] at h
          cases ht : t.mapM f with
          | error e => rw [ht] at h; simp [except_bind_error] at h
          | ok bs =>
              rw [ht] at h
              simp only [except_bind_ok, except_pure, Except.ok.injEq] at h
              subst h
              rcases List.mem_cons.mp ha with h1 | h2
              · exact ⟨b, List.mem_cons_self _ _, by rw [h1]; exact hf⟩
              · obtain ⟨b', hb', hfb'⟩ := ih bs ht a h2
                exact ⟨b', List.mem_cons_of_mem _ hb', hfb'⟩

theorem mapM_ok_mem_rev {ε α β : Type} (f : α → Except ε β) :
    ∀ (L : List α) (L' : List β), L.mapM f = .ok L' →
      ∀ b ∈ L', ∃ a ∈ L, f a = .ok b := by
  intro L
  induction L with
  | nil =>
      intro L' h b hb
      simp only [List.mapM_nil, except_pure, Except.ok.injEq] at h
      subst h
      simp at hb
  | cons hd t ih =>
      intro L' h b hb
      rw [List.mapM_cons] at h
      cases hf : f hd with
      | error e => rw [hf] at h; simp [except_bind_error] at h
      | ok b₀ =>
          rw [hf] at h
          simp only [except_bind_ok] at h
          cases ht : t.mapM f with
          | error e => rw [ht] at h; simp [except_bind_error] at h
          | ok bs =>
              rw [ht] at h
              simp only [except_bind_ok, except_pure, Except.ok.injEq] at h
              subst h
              rcases List.mem_cons.mp hb with h1 | h2
              · exact ⟨hd, List.mem_cons_self _ _, by rw [h1]; exact hf⟩
              · obtain ⟨a, ha, hfa⟩ := ih bs ht b h2
                exact ⟨a, List.mem_cons_of_mem _ ha, hfa⟩

theorem removeRelationshipOp_shape (sch : Schema) (t : RecordIdentity) (inv : String)
    (x : RecordIdentity) (op : RecordOperation)
    (h : removeRelationshipOp sch t inv x = .ok op) :
    cleanupOp op ∧ clearsX x op ∧ op.recordIdentity = t ∧ op.relationshipName = inv := by
  unfold removeRelationshipOp at h
  cases hd : relationshipDefOf sch t.type inv with
  | none => rw [hd] at h; simp [except_throw] at h
  | some rdef =>
      rw [hd] at h
      simp only [] at h
      by_cases hk : rdef.kind = RelKind.hasMany
      · rw [if_pos hk] at h
        simp only [except_pure, Except.ok.injEq] at h
        subst h
        exact ⟨trivial, rfl, rfl, rfl⟩
      · rw [if_neg hk] at h
        simp only [except_pure, Except.ok.injEq] at h
        subst h
        exact ⟨rfl, rfl, rfl, rfl⟩

theorem clearInverseRelationshipOps_shape (sch : Schema) (s : CacheState) (x : RecordIdentity)
    (ops : List RecordOperation) (h : clearInverseRelationshipOps sch s x = .ok ops) :
    (∀ op ∈ ops, cleanupOp op ∧ clearsX x op) ∧
    (∀ rel ∈ getInverselyRelatedRecords s x, ∃ op ∈ ops,
      op.recordIdentity = rel.record ∧ op.relationshipName = rel.relationship) := by
  unfold clearInverseRelationshipOps at h
  by_cases he : (getInverselyRelatedRecords s x).isEmpty
  · rw [if_pos he] at h
    simp only [except_pure, Except.ok.injEq] at h
    subst h
    constructor
    · intro op hop
      simp at hop
    · intro rel hrel
      rw [List.isEmpty_iff] at he
      rw [he] at hrel
      simp at hrel
  · rw [if_neg he] at h
    constructor
    · intro op hop
      obtain ⟨rel, _, hf⟩ := mapM_ok_mem_rev _ _ _ h op hop
      revert hf
      cases hd : relationshipDefOf sch rel.record.type rel.relationship with
      | none =>
          intro hf
          simp [hd, except_throw] at hf
      | some rdef =>
          intro hf
          simp only [] at hf
          by_cases hk : rdef.kind = RelKind.hasMany
          · rw [if_pos hk] at hf
            simp only [except_pure, Except.ok.injEq] at hf
            subst hf
            exact ⟨trivial, rfl⟩
          · rw [if_neg hk] at hf
            simp only [except_pure, Except.ok.injEq] at hf
            subst hf
            exact ⟨rfl, rfl⟩
    · intro rel hrel
      obtain ⟨op, hop, hf⟩ := mapM_ok_mem _ _ _ h rel hrel
      refine ⟨op, hop, ?_⟩
      revert hf
      cases hd : relationshipDefOf sch rel.record.type rel.relationship with
      | none =>
          intro hf
          simp [hd, except_throw] at hf
      | some rdef =>
          intro hf
          simp only [] at hf
          by_cases hk : rdef.kind = RelKind.hasMany
          · rw [if_pos hk] at hf
            simp only [except_pure, Except.ok.injEq] at hf
            subst hf
            exact ⟨rfl, rfl⟩
          · rw [if_neg hk] at hf
            simp only [except_pure, Except.ok.injEq] at hf
            subst hf
            exact ⟨rfl, rfl⟩

theorem consistencyAfter_removeRecord_shape (sch : Schema) (s : CacheState)
    (x : RecordIdentity) (ops : List RecordOperation)
    (h : consistencyAfter sch s (.removeRecord x) = .ok ops) :
    ∀ op ∈ ops, cleanupOp op ∧ clearsX x op := by
  unfold consistencyAfter at h
  simp only [] at h
  cases hg : getRecord s x with
  | none =>
      rw [hg] at h
      simp only [except_pure, Except.ok.injEq] at h
      subst h
      intro op hop
      simp at hop
  | some current =>
      rw [hg] at h
      simp only [] at h
      obtain ⟨opLists, hm, hpure⟩ := except_bind_ok_inv h
      have hops := except_ok_of_pure hpure
      subst hops
      intro op hop
      rw [List.mem_flatten] at hop
      obtain ⟨l, hl, hopl⟩ := hop
      obtain ⟨kv, _, hfkv⟩ := mapM_ok_mem_rev _ _ _ hm l hl
      revert hfkv
      cases hd : relationshipDefOf sch x.type kv.1 with
      | none =>
          intro hfkv
          simp [hd, except_throw] at hfkv
      | some rdef =>
          intro hfkv
          simp only [] at hfkv
          cases hi : rdef.inverse with
          | none =>
              rw [hi] at hfkv
              simp only [except_pure, Except.ok.injEq] at hfkv
              subst hfkv
              simp at hopl
          | some inv =>
              rw [hi] at hfkv
              obtain ⟨t, _, hrt⟩ := mapM_ok_mem_rev _ _ _ hfkv op hopl
              obtain ⟨h1, h2, _, _⟩ := removeRelationshipOp_shape sch t inv x op hrt
              exact ⟨h1, h2⟩

theorem i1_getRecord (s : CacheState) (h : i1Holds s) (i : RecordIdentity) (r : Record)
    (hr : getRecord s i = some r) : r.type = i.type ∧ r.id = i.id := by
  unfold getRecord at hr
  cases hb : dictGet s.records i.type with
  | none => rw [hb] at hr; simp at hr
  | some bucket =>
      rw [hb] at hr
      simp only [Option.some_bind] at hr
      exact h (i.type, bucket) (dictGet_mem hb) (i.id, r) (dictGet_mem hr)

theorem includes_eq_mentions (ts : List RecordIdentity) (x : RecordIdentity) :
    recordIdentitySetIncludes ts x = mentionsId (.many ts) x := by
  simp [recordIdentitySetIncludes, mentionsId, equalRecordIdentities]

theorem equalRel_nullData_iff (d : RelData) :
    equalRecordIdentitiesRel d .nullData = true ↔ d = .nullData := by
  cases d <;> simp [equalRecordIdentitiesRel]

/-- If the inverse operator of removeFromRelatedRecords for x finds nothing
to undo, the record holds no pointer at x through the relationship. -/
theorem skip_rFRR_no_ptr (sch : Schema) (s : CacheState) (y : RecordIdentity) (rel : String)
    (x : RecordIdentity)
    (h : inverseTransform s (.removeFromRelatedRecords y rel x) = .ok none) :
    ¬ hasPtr sch s x y rel := by
  unfold inverseTransform relatedRecordsIncludeOne at h
  simp only [] at h
  cases hg : getRelatedRecords s y rel with
  | singleId t => rw [hg] at h; simp [except_bind_error] at h
  | ids l =>
      rw [hg] at h
      simp only [except_bind_ok] at h
      by_cases hin : recordIdentitySetIncludes l x
      · rw [if_pos hin] at h
        simp [except_pure] at h
      · rintro ⟨r, d, rdef, hgr, hrd, hm, _, _⟩
        unfold getRelatedRecords at hg
        rw [hgr] at hg
        simp only [Option.some_bind, hrd] at hg
        cases d with
        | single t => simp at hg
        | nullData => simp [mentionsId] at hm
        | many ts =>
            simp only [IdsOrSingle.ids.injEq] at hg
            subst hg
            rw [includes_eq_mentions] at hin
            exact hin hm

/-- If the inverse operator of a null replaceRelatedRecord finds nothing to
undo, the relationship data is null, hence points at nothing. -/
theorem skip_rRRnull_no_ptr (sch : Schema) (s : CacheState) (y : RecordIdentity) (rel : String)
    (x : RecordIdentity)
    (h : inverseTransform s (.replaceRelatedRecord y rel .nullData) = .ok none) :
    ¬ hasPtr sch s x y rel := by
  unfold inverseTransform at h
  simp only [] at h
  by_cases he : equalRecordIdentitiesRel (getRelatedRecord s y rel) .nullData
  · rintro ⟨r, d, rdef, hgr, hrd, hm, _, _⟩
    rw [equalRel_nullData_iff] at he
    unfold getRelatedRecord at he
    rw [hgr] at he
    simp only [Option.some_bind, hrd, Option.getD_some] at he
    subst he
    simp [mentionsId] at hm
  · rw [if_neg he] at h
    simp [except_pure] at h

/-- When the inverse operator of removeFromRelatedRecords produces an undo,
the record exists and its data is an identity array containing the target. -/
theorem inverseTransform_rFRR_some (s : CacheState) (y : RecordIdentity) (rel : String)
    (t : RecordIdentity) (inv : RecordOperation)
    (h : inverseTransform s (.removeFromRelatedRecords y rel t) = .ok (some inv)) :
    ∃ r ts, getRecord s y = some r ∧ relDataOf r rel = some (.many ts) ∧
      recordIdentitySetIncludes ts t = true := by
  unfold inverseTransform relatedRecordsIncludeOne at h
  simp only [] at h
  cases hg : getRelatedRecords s y rel with
  | singleId t₀ => rw [hg] at h; simp [except_bind_error] at h
  | ids l =>
      rw [hg] at h
      simp only [except_bind_ok] at h
      by_cases hin : recordIdentitySetIncludes l t
      · unfold getRelatedRecords at hg
        cases hgr : getRecord s y with
        | none =>
            rw [hgr] at hg
            simp only [Option.none_bind] at hg
            simp only [IdsOrSingle.ids.injEq] at hg
            subst hg
            simp [recordIdentitySetIncludes] at hin
        | some r =>
            rw [hgr] at hg
            simp only [Option.some_bind] at hg
            cases hrd : relDataOf r rel with
            | none =>
                rw [hrd] at hg
                simp only [IdsOrSingle.ids.injEq] at hg
                subst hg
                simp [recordIdentitySetIncludes] at hin
            | some d =>
                rw [hrd] at hg
                cases d with
                | single t₀ => simp at hg
                | nullData =>
                    simp only [IdsOrSingle.ids.injEq] at hg
                    subst hg
                    simp [recordIdentitySetIncludes] at hin
                | many ts =>
                    simp only [IdsOrSingle.ids.injEq] at hg
                    subst hg
                    exact ⟨r, ts, rfl, hrd, hin⟩
      · rw [if_neg hin] at h
        simp [except_pure] at h

/-- When the inverse operator of a null replaceRelatedRecord produces an
undo, the record exists and its data is present and non-null. -/
theorem inverseTransform_rRRnull_some (s : CacheState) (y : RecordIdentity) (rel : String)
    (inv : RecordOperation)
    (h : inverseTransform s (.replaceRelatedRecord y rel .nullData) = .ok (some inv)) :
    ∃ r d, getRecord s y = some r ∧ relDataOf r rel = some d ∧ d ≠ .nullData := by
  unfold inverseTransform at h
  simp only [] at h
  by_cases he : equalRecordIdentitiesRel (getRelatedRecord s y rel) .nullData
  · rw [if_pos he] at h
    simp [except_pure] at h
  · have hne : getRelatedRecord s y rel ≠ .nullData := by
      intro hh
      exact he ((equalRel_nullData_iff _).mpr hh)
    unfold getRelatedRecord at hne
    cases hgr : getRecord s y with
    | none => rw [hgr] at hne; simp at hne
    | some r =>
        rw [hgr] at hne
        simp only [Option.some_bind] at hne
        cases hrd : relDataOf r rel with
        | none => rw [hrd] at hne; simp at hne
        | some d =>
            rw [hrd] at hne
            simp only [Option.getD_some] at hne
            exact ⟨r, d, rfl, hrd, hne⟩

/-- The index-cleanup helper of the integrity processor leaves the records
untouched and preserves the empty back-ref list of any identity. -/
theorem integrityRemoveInverseRelationship_effects (sch : Schema) (s : CacheState)
    (y : RecordIdentity) (rel : String) (tr : Option RecordIdentity) (s₁ : CacheState)
    (h : integrityRemoveInverseRelationship sch s y rel tr = .ok s₁) :
    s₁.records = s.records ∧
    (∀ x, getInverselyRelatedRecords s x = [] → getInverselyRelatedRecords s₁ x = []) := by
  unfold integrityRemoveInverseRelationship at h
  cases hd : relationshipDefOf sch y.type rel with
  | none => rw [hd] at h; simp [except_throw] at h
  | some rdef =>
      rw [hd] at h
      simp only [] at h
      by_cases hi : rdef.inverse.isSome
      · rw [if_pos hi] at h
        revert h
        cases hres : (match tr with
          | some r => RelData.single r
          | none =>
              ((getRecord s y).bind (fun cr => relDataOf cr rel)).getD .nullData) with
        | nullData =>
            intro h
            simp only [except_pure, Except.ok.injEq] at h
            subst h
            exact ⟨rfl, fun x hx => hx⟩
        | single t =>
            intro h
            simp only [except_pure, Except.ok.injEq] at h
            subst h
            exact ⟨records_removeInverselyRelatedRecord s t ⟨y, rel⟩,
              fun x hx => norefs_removeInverselyRelatedRecord s t ⟨y, rel⟩ x hx⟩
        | many ts =>
            intro h
            simp [except_throw] at h
      · rw [if_neg hi] at h
        simp only [except_pure, Except.ok.injEq] at h
        subst h
        exact ⟨rfl, fun x hx => hx⟩

theorem relDataOf_update_self (r : Record) (rel : String) (d : RelData) :
    relDataOf { r with relationships := some (dictSet (r.relationships.getD []) rel d) } rel =
      some d := by
  simp [relDataOf, dictGet_dictSet_self]

theorem relDataOf_update_ne (r : Record) (rel rel₂ : String) (d : RelData) (h : rel ≠ rel₂) :
    relDataOf { r with relationships := some (dictSet (r.relationships.getD []) rel d) } rel₂ =
      relDataOf r rel₂ := by
  simp only [relDataOf, Option.some_bind]
  rw [dictGet_dictSet_ne _ _ _ _ h]
  cases hr : r.relationships with
  | none => simp [dictGet]
  | some rd => simp

theorem mentions_filter_false (ts : List RecordIdentity) (x : RecordIdentity) :
    mentionsId (.many (ts.filter (fun e => !equalRecordIdentities (some e) (some x)))) x =
      false := by
  simp only [mentionsId, List.any_eq_false]
  intro t ht
  rw [List.mem_filter] at ht
  have hpred := ht.2
  simp only [equalRecordIdentities, Bool.not_eq_true'] at hpred
  simpa using hpred

/-- The consistency injections of removeFromRelatedRecords are cleanup
operations. -/
theorem consistencyAfter_rFRR_shape (sch : Schema) (s : CacheState) (y : RecordIdentity)
    (rel : String) (t : RecordIdentity) (ops : List RecordOperation)
    (h : consistencyAfter sch s (.removeFromRelatedRecords y rel t) = .ok ops) :
    ∀ op ∈ ops, cleanupOp op := by
  unfold consistencyAfter at h
  simp only [] at h
  cases hd : relationshipDefOf sch y.type rel with
  | none => rw [hd] at h; simp [except_throw] at h
  | some rdef =>
      rw [hd] at h
      simp only [] at h
      cases hi : rdef.inverse with
      | none =>
          rw [hi] at h
          simp only [except_pure, Except.ok.injEq] at h
          subst h
          intro op hop
          simp at hop
      | some inv =>
          rw [hi] at h
          obtain ⟨op₂, hro, hpure⟩ := except_bind_ok_inv h
          have hops := except_ok_of_pure hpure
          subst hops
          intro op hop
          simp only [List.mem_singleton] at hop
          subst hop
          exact (removeRelationshipOp_shape sch t inv y op hro).1

/-- The consistency injections of a null replaceRelatedRecord are cleanup
operations. -/
theorem consistencyAfter_rRRnull_shape (sch : Schema) (s : CacheState) (y : RecordIdentity)
    (rel : String) (ops : List RecordOperation)
    (h : consistencyAfter sch s (.replaceRelatedRecord y rel .nullData) = .ok ops) :
    ∀ op ∈ ops, cleanupOp op := by
  unfold consistencyAfter at h
  simp only [] at h
  cases hd : relationshipDefOf sch y.type rel with
  | none => rw [hd] at h; simp [except_throw] at h
  | some rdef =>
      rw [hd] at h
      simp only [] at h
      cases hi : rdef.inverse with
      | none =>
          rw [hi] at h
          simp only [except_pure, Except.ok.injEq] at h
          subst h
          intro op hop
          simp at hop
      | some inv =>
          rw [hi] at h
          simp only [] at h
          by_cases he : equalRecordIdentitiesRel .nullData (getRelatedRecord s y rel)
          · rw [if_pos he] at h
            simp only [except_pure, Except.ok.injEq] at h
            subst h
            intro op hop
            simp at hop
          · rw [if_neg he] at h
            cases hc : getRelatedRecord s y rel with
            | single c =>
                rw [hc] at h
                cases hro : removeRelationshipOp sch c inv y with
                | error e =>
                    simp only [hro, except_bind_error] at h
                    exact Except.noConfusion h
                | ok op₂ =>
                    simp only [hro, except_bind_ok, except_pure, Except.ok.injEq] at h
                    subst h
                    intro op hop
                    simp only [List.mem_append, List.mem_singleton] at hop
                    rcases hop with hop | hop
                    · subst hop
                      exact (removeRelationshipOp_shape sch c inv y _ hro).1
                    · simp at hop
            | nullData =>
                rw [hc] at h
                simp only [except_bind_ok, except_pure, Except.ok.injEq] at h
                subst h
                intro op hop
                simp at hop
            | many cs =>
                rw [hc] at h
                simp only [except_bind_ok, except_pure, Except.ok.injEq] at h
                subst h
                intro op hop
                simp at hop

/-- Applying a list of cleanup operations preserves the invariant and never
introduces a pointer at x. -/
theorem cleanup_fold (sch : Schema) (x : RecordIdentity) (fuel : Nat)
    (ih : ∀ (op : RecordOperation) (s : CacheState) (res : PatchResult) (primary : Bool)
      (s' : CacheState) (res' : PatchResult), cleanupOp op → CleanInv sch x s →
      applyOperation sch fuel s res primary op = .ok (s', res') →
      CleanInv sch x s' ∧ (∀ o r2, hasPtr sch s' x o r2 → hasPtr sch s x o r2) ∧
      (clearsX x op → ¬ hasPtr sch s' x op.recordIdentity op.relationshipName)) :
    ∀ (L : List RecordOperation) (s : CacheState) (res : PatchResult)
      (s' : CacheState) (res' : PatchResult),
      (∀ op ∈ L, cleanupOp op) → CleanInv sch x s →
      List.foldlM (fun p op => applyOperation sch fuel p.1 p.2 false op) (s, res) L =
        .ok (s', res') →
      CleanInv sch x s' ∧ (∀ o r2, hasPtr sch s' x o r2 → hasPtr sch s x o r2) := by
  intro L
  induction L with
  | nil =>
      intro s res s' res' _ hinv hfold
      simp only [List.foldlM_nil, except_pure, Except.ok.injEq, Prod.mk.injEq] at hfold
      obtain ⟨h1, _⟩ := hfold
      subst h1
      exact ⟨hinv, fun o r2 hp => hp⟩
  | cons hd t ihL =>
      intro s res s' res' hall hinv hfold
      rw [List.foldlM_cons] at hfold
      obtain ⟨⟨s₁, res₁⟩, happ, hfold⟩ := except_bind_ok_inv hfold
      obtain ⟨hinv₁, hsub₁, _⟩ :=
        ih hd s res false s₁ res₁ (hall hd (List.mem_cons_self _ _)) hinv happ
      obtain ⟨hinv₂, hsub₂⟩ := ihL s₁ res₁ s' res'
        (fun op hop => hall op (List.mem_cons_of_mem _ hop)) hinv₁ hfold
      exact ⟨hinv₂, fun o r2 hp => hsub₁ o r2 (hsub₂ o r2 hp)⟩

/-- Writing a record back with one relationship replaced by data that only
mentions what the old data mentioned preserves the invariant, introduces no
pointer at x, and when the new data does not mention x clears the pair. -/
theorem cleanup_write (sch : Schema) (x : RecordIdentity) (s : CacheState) (y : RecordIdentity)
    (r : Record) (rel : String) (d : RelData)
    (hinv : CleanInv sch x s) (hr : getRecord s y = some r)
    (hty : r.type = y.type) (hid : r.id = y.id)
    (hmono : mentionsId d x = true →
      ∃ d₀, relDataOf r rel = some d₀ ∧ mentionsId d₀ x = true) :
    CleanInv sch x
      (setRecord s
        { r with relationships := some (dictSet (r.relationships.getD []) rel d) }) ∧
    (∀ owner rel2,
      hasPtr sch
        (setRecord s
          { r with relationships := some (dictSet (r.relationships.getD []) rel d) })
        x owner rel2 →
      hasPtr sch s x owner rel2) ∧
    (mentionsId d x = false →
      ¬ hasPtr sch
        (setRecord s
          { r with relationships := some (dictSet (r.relationships.getD []) rel d) })
        x y rel) := by
  set r' := { r with relationships := some (dictSet (r.relationships.getD []) rel d) } with hr'
  have hcoords : (⟨r'.type, r'.id⟩ : RecordIdentity) = y := by
    show (⟨r.type, r.id⟩ : RecordIdentity) = y
    rw [hty, hid]
  have hgself : getRecord (setRecord s r') y = some r' := by
    rw [← hcoords]
    exact getRecord_setRecord_self s r'
  have habs : getRecord (setRecord s r') x = none := by
    have hxy : ¬(x.type = r'.type ∧ x.id = r'.id) := by
      rintro ⟨h1, h2⟩
      have hxeq : x = y := by
        rw [← hcoords]
        obtain ⟨x1, x2⟩ := x
        simp only at h1 h2
        simp [h1, h2]
      rw [hxeq] at hinv
      have := hinv.absent
      rw [this] at hr
      exact Option.noConfusion hr
    rw [getRecord_setRecord_ne s r' x hxy]
    exact hinv.absent
  have hownerCase : ∀ owner : RecordIdentity, (owner.type = r'.type ∧ owner.id = r'.id) →
      owner = y := by
    rintro owner ⟨h1, h2⟩
    rw [← hcoords]
    obtain ⟨o1, o2⟩ := owner
    simp only at h1 h2
    simp [h1, h2]
  refine ⟨⟨i1_setRecord s r' hinv.i1, habs, ?_⟩, ?_, ?_⟩
  · rw [getInv_of_index_eq s (setRecord s r') (inverseRelationships_setRecord s r') x]
    exact hinv.norefs
  · rintro owner rel2 ⟨rr, dd, rdef, hgr, hrd, hm, hdef, hinvd⟩
    by_cases howner : owner.type = r'.type ∧ owner.id = r'.id
    · have hoy : owner = y := hownerCase owner howner
      subst hoy
      rw [hgself] at hgr
      have hrr : rr = r' := by
        injection hgr.symm
      subst hrr
      by_cases hrel2 : rel = rel2
      · subst hrel2
        rw [relDataOf_update_self] at hrd
        have hdd : dd = d := by injection hrd.symm
        subst hdd
        obtain ⟨d₀, hd₀, hm₀⟩ := hmono hm
        exact ⟨r, d₀, rdef, hr, hd₀, hm₀, hdef, hinvd⟩
      · rw [relDataOf_update_ne r rel rel2 d hrel2] at hrd
        exact ⟨r, dd, rdef, hr, hrd, hm, hdef, hinvd⟩
    · rw [getRecord_setRecord_ne s r' owner (by exact howner)] at hgr
      exact ⟨rr, dd, rdef, hgr, hrd, hm, hdef, hinvd⟩
  · rintro hm0 ⟨rr, dd, rdef, hgr, hrd, hm, hdef, hinvd⟩
    rw [hgself] at hgr
    have hrr : rr = r' := by injection hgr.symm
    subst hrr
    rw [relDataOf_update_self] at hrd
    have hdd : dd = d := by injection hrd.symm
    subst hdd
    rw [hm] at hm0
    exact Bool.noConfusion hm0

theorem mentions_filter_mono (ts : List RecordIdentity) (p : RecordIdentity → Bool)
    (x : RecordIdentity) :
    mentionsId (.many (ts.filter p)) x = true → mentionsId (.many ts) x = true := by
  simp only [mentionsId, List.any_eq_true]
  rintro ⟨e, he, hx⟩
  exact ⟨e, (List.mem_filter.mp he).1, hx⟩

/-- One step of the removal cascade: a cleanup operation, run through the
pipeline from an invariant state, preserves the invariant, introduces no
pointer at x, and when it targets x it clears every pointer at x under its
own record and relationship pair. -/
theorem cleanup_apply (sch : Schema) (x : RecordIdentity) :
    ∀ (fuel : Nat) (op : RecordOperation) (s : CacheState) (res : PatchResult) (primary : Bool)
      (s' : CacheState) (res' : PatchResult),
      cleanupOp op → CleanInv sch x s →
      applyOperation sch fuel s res primary op = .ok (s', res') →
      CleanInv sch x s' ∧
      (∀ o r2, hasPtr sch s' x o r2 → hasPtr sch s x o r2) ∧
      (clearsX x op → ¬ hasPtr sch s' x op.recordIdentity op.relationshipName) := by
  intro fuel
  induction fuel with
  | zero =>
      intro op s res primary s' res' _ _ hrun
      simp [applyOperation] at hrun
  | succ fuel ih =>
      intro op s res primary s' res' hclean hinv hrun
      simp only [applyOperation] at hrun
      obtain ⟨u, hval, hrun⟩ := except_bind_ok_inv hrun
      obtain ⟨invOp, hinvop, hrun⟩ := except_bind_ok_inv hrun
      cases invOp with
      | none =>
          simp only [] at hrun
          have hs : s' = s := by
            cases primary with
            | false =>
                simp only [Bool.false_eq_true, if_false, except_pure, Except.ok.injEq,
                  Prod.mk.injEq] at hrun
                exact hrun.1.symm
            | true =>
                simp only [if_true, except_pure, Except.ok.injEq, Prod.mk.injEq] at hrun
                exact hrun.1.symm
          subst hs
          refine ⟨hinv, fun o r2 hp => hp, ?_⟩
          cases op with
          | removeFromRelatedRecords y rel t =>
              intro hx
              have ht : t = x := hx
              subst ht
              exact skip_rFRR_no_ptr sch s' y rel t hinvop
          | replaceRelatedRecord y rel d =>
              intro hx
              have hd : d = .nullData := hx
              subst hd
              exact skip_rRRnull_no_ptr sch s' y rel x hinvop
          | addRecord r => simp [cleanupOp] at hclean
          | replaceRecord r => simp [cleanupOp] at hclean
          | removeRecord i => simp [cleanupOp] at hclean
          | replaceKey i k v => simp [cleanupOp] at hclean
          | replaceAttribute i a v => simp [cleanupOp] at hclean
          | addToRelatedRecords i rel t => simp [cleanupOp] at hclean
          | replaceRelatedRecords i rel ts => simp [cleanupOp] at hclean
      | some inv =>
          simp only [] at hrun
          obtain ⟨consistencyOps, hcons, hrun⟩ := except_bind_ok_inv hrun
          obtain ⟨⟨s₁, integrityOps⟩, hint, hrun⟩ := except_bind_ok_inv hrun
          simp only [] at hrun
          obtain ⟨⟨s₂, datum⟩, hpat, hrun⟩ := except_bind_ok_inv hrun
          simp only [] at hrun
          obtain ⟨⟨s₃, res₃⟩, hfold1, hrun⟩ := except_bind_ok_inv hrun
          simp only [] at hrun
          obtain ⟨⟨s₄, finOps⟩, hfin, hrun⟩ := except_bind_ok_inv hrun
          simp only [] at hrun
          obtain ⟨⟨s₅, res₅⟩, hfold2, hrun⟩ := except_bind_ok_inv hrun
          simp only [except_pure, Except.ok.injEq, Prod.mk.injEq] at hrun
          obtain ⟨hs', _⟩ := hrun
          subst hs'
          cases op with
          | addRecord r => simp [cleanupOp] at hclean
          | replaceRecord r => simp [cleanupOp] at hclean
          | removeRecord i => simp [cleanupOp] at hclean
          | replaceKey i k v => simp [cleanupOp] at hclean
          | replaceAttribute i a v => simp [cleanupOp] at hclean
          | addToRelatedRecords i rel t => simp [cleanupOp] at hclean
          | replaceRelatedRecords i rel ts => simp [cleanupOp] at hclean
          | removeFromRelatedRecords y rel t =>
              obtain ⟨r, ts, hr, hd, hin⟩ := inverseTransform_rFRR_some s y rel t inv hinvop
              -- integrityAfter: index cleanup only
              unfold integrityAfter at hint
              simp only [] at hint
              obtain ⟨sX, hrem, hpure⟩ := except_bind_ok_inv hint
              simp only [except_pure, Except.ok.injEq, Prod.mk.injEq] at hpure
              obtain ⟨hs₁, hIO⟩ := hpure
              have hs₁x : s₁ = sX := hs₁.symm
              subst hs₁x
              subst hIO
              obtain ⟨hrecs, hnor⟩ :=
                integrityRemoveInverseRelationship_effects sch s y rel (some t) s₁ hrem
              have hinv₁ : CleanInv sch x s₁ :=
                ⟨i1_of_records_eq s s₁ hrecs hinv.i1,
                 by rw [getRecord_of_records_eq s s₁ hrecs x]; exact hinv.absent,
                 hnor x hinv.norefs⟩
              have hr₁ : getRecord s₁ y = some r := by
                rw [getRecord_of_records_eq s s₁ hrecs y]; exact hr
              -- the main operator writes the filtered list
              rw [show patchOperator s₁ (.removeFromRelatedRecords y rel t) =
                  .ok (setRecord s₁
                    { r with relationships := some (dictSet (r.relationships.getD []) rel
                      (.many (ts.filter
                        (fun e => !equalRecordIdentities (some e) (some t))))) },
                    some { r with relationships := some (dictSet (r.relationships.getD []) rel
                      (.many (ts.filter
                        (fun e => !equalRecordIdentities (some e) (some t))))) })
                from by simp [patchOperator, hr₁, hd]] at hpat
              simp only [Except.ok.injEq, Prod.mk.injEq] at hpat
              obtain ⟨hs₂, _⟩ := hpat
              obtain ⟨hty, hid⟩ := i1_getRecord s₁ hinv₁.i1 y r hr₁
              obtain ⟨hinv₂, hsub₂, hclear₂⟩ :=
                cleanup_write sch x s₁ y r rel
                  (.many (ts.filter (fun e => !equalRecordIdentities (some e) (some t))))
                  hinv₁ hr₁ hty hid
                  (fun hm => ⟨.many ts, hd, mentions_filter_mono ts _ x hm⟩)
              rw [hs₂] at hinv₂ hsub₂ hclear₂
              -- the staged operations are cleanup operations
              have hshapes : ∀ op₂ ∈ consistencyOps ++ ([] : List RecordOperation), cleanupOp op₂ := by
                intro op₂ hop₂
                rcases List.mem_append.mp hop₂ with hl | hl
                · exact consistencyAfter_rFRR_shape sch s y rel t consistencyOps hcons op₂ hl
                · simp at hl
              obtain ⟨hinv₃, hsub₃⟩ :=
                cleanup_fold sch x fuel ih (consistencyOps ++ ([] : List RecordOperation)) s₂ _ s₃ res₃
                  hshapes hinv₂ hfold1
              -- finally is inert
              unfold integrityFinally at hfin
              simp only [except_pure, Except.ok.injEq, Prod.mk.injEq] at hfin
              obtain ⟨hs₄, hFO⟩ := hfin
              subst hs₄
              subst hFO
              simp only [List.foldlM_nil, except_pure, Except.ok.injEq, Prod.mk.injEq] at hfold2
              obtain ⟨hs₅, _⟩ := hfold2
              subst hs₅
              have hsubset : ∀ o r2, hasPtr sch s₃ x o r2 → hasPtr sch s x o r2 := by
                intro o r2 hp
                have hp₂ := hsub₃ o r2 hp
                have hp₁ := hsub₂ o r2 hp₂
                exact (hasPtr_of_records_eq sch s s₁ hrecs x o r2).mp hp₁
              refine ⟨hinv₃, hsubset, ?_⟩
              intro hx
              have ht : t = x := hx
              subst ht
              intro hp
              exact hclear₂ (mentions_filter_false ts t) (hsub₃ y rel hp)
          | replaceRelatedRecord y rel d =>
              have hdn : d = .nullData := hclean
              subst hdn
              obtain ⟨r, d₀, hr, hd₀, hne⟩ := inverseTransform_rRRnull_some s y rel inv hinvop
              unfold integrityAfter at hint
              simp only [] at hint
              obtain ⟨sX, hrem, hpure⟩ := except_bind_ok_inv hint
              simp only [except_pure, Except.ok.injEq, Prod.mk.injEq] at hpure
              obtain ⟨hs₁, hIO⟩ := hpure
              have hs₁x : s₁ = sX := hs₁.symm
              subst hs₁x
              subst hIO
              obtain ⟨hrecs, hnor⟩ :=
                integrityRemoveInverseRelationship_effects sch s y rel none s₁ hrem
              have hinv₁ : CleanInv sch x s₁ :=
                ⟨i1_of_records_eq s s₁ hrecs hinv.i1,
                 by rw [getRecord_of_records_eq s s₁ hrecs x]; exact hinv.absent,
                 hnor x hinv.norefs⟩
              have hr₁ : getRecord s₁ y = some r := by
                rw [getRecord_of_records_eq s s₁ hrecs y]; exact hr
              have hskipF : (relDataOf r rel = some RelData.nullData ∧
                  (RelData.nullData : RelData) = .nullData) → False := by
                rintro ⟨hh, _⟩
                rw [hd₀] at hh
                exact hne (Option.some.inj hh)
              rw [show patchOperator s₁ (.replaceRelatedRecord y rel .nullData) =
                  .ok (setRecord s₁
                    { r with relationships := some (dictSet (r.relationships.getD [])
                        rel .nullData) },
                    some { r with relationships := some (dictSet (r.relationships.getD [])
                        rel .nullData) })
                from by
                  simp only [patchOperator, recordOrSynthesized, hr₁]
                  rw [if_neg (by simp [hd₀]; intro hh; exact hne hh)]
                ] at hpat
              simp only [Except.ok.injEq, Prod.mk.injEq] at hpat
              obtain ⟨hs₂, _⟩ := hpat
              obtain ⟨hty, hid⟩ := i1_getRecord s₁ hinv₁.i1 y r hr₁
              obtain ⟨hinv₂, hsub₂, hclear₂⟩ :=
                cleanup_write sch x s₁ y r rel .nullData hinv₁ hr₁ hty hid
                  (fun hm => by simp [mentionsId] at hm)
              rw [hs₂] at hinv₂ hsub₂ hclear₂
              have hshapes : ∀ op₂ ∈ consistencyOps ++ ([] : List RecordOperation), cleanupOp op₂ := by
                intro op₂ hop₂
                rcases List.mem_append.mp hop₂ with hl | hl
                · exact consistencyAfter_rRRnull_shape sch s y rel consistencyOps hcons op₂ hl
                · simp at hl
              obtain ⟨hinv₃, hsub₃⟩ :=
                cleanup_fold sch x fuel ih (consistencyOps ++ ([] : List RecordOperation)) s₂ _ s₃ res₃
                  hshapes hinv₂ hfold1
              unfold integrityFinally at hfin
              obtain ⟨sY, hadd, hpure₂⟩ := except_bind_ok_inv hfin
              have haddeq : s₃ = sY := by
                simpa [integrityAddInverseRelationship, except_pure] using hadd
              subst haddeq
              simp only [except_pure, Except.ok.injEq, Prod.mk.injEq] at hpure₂
              obtain ⟨hs₄, hFO⟩ := hpure₂
              subst hs₄
              subst hFO
              simp only [List.foldlM_nil, except_pure, Except.ok.injEq, Prod.mk.injEq] at hfold2
              obtain ⟨hs₅, _⟩ := hfold2
              subst hs₅
              have hsubset : ∀ o r2, hasPtr sch s₃ x o r2 → hasPtr sch s x o r2 := by
                intro o r2 hp
                have hp₂ := hsub₃ o r2 hp
                have hp₁ := hsub₂ o r2 hp₂
                exact (hasPtr_of_records_eq sch s s₁ hrecs x o r2).mp hp₁
              refine ⟨hinv₃, hsubset, ?_⟩
              intro _ hp
              exact hclear₂ rfl (hsub₃ y rel hp)

theorem mem_dictRemove {α : Type} {d : Dict α} {k : String} {e : String × α}
    (h : e ∈ dictRemove d k) : e ∈ d := by
  induction d with
  | nil => simp [dictRemove] at h
  | cons hd t ih =>
      obtain ⟨k₀, v₀⟩ := hd
      by_cases hk : k₀ = k
      · simp only [dictRemove, if_pos hk] at h
        exact List.mem_cons_of_mem _ (ih h)
      · simp only [dictRemove, if_neg hk] at h
        rcases List.mem_cons.mp h with h1 | h2
        · rw [h1]; exact List.mem_cons_self _ _
        · exact List.mem_cons_of_mem _ (ih h2)

theorem records_foldl_preserved {α : Type} (f : CacheState → α → CacheState)
    (hf : ∀ st a, (f st a).records = st.records) :
    ∀ (l : List α) (st : CacheState), (l.foldl f st).records = st.records := by
  intro l
  induction l with
  | nil => intro st; rfl
  | cons a t ihl => intro st; rw [List.foldl_cons, ihl, hf]

theorem records_integrityRemoveAll (s : CacheState) (i : RecordIdentity) :
    (integrityRemoveAllInverseRelationships s i).records = s.records := by
  unfold integrityRemoveAllInverseRelationships
  rw [records_removeInverseRelationships]
  cases h : getRecord s i with
  | none => rfl
  | some rec =>
      simp only []
      apply records_foldl_preserved
      intro st kv
      cases hkv : kv.2 with
      | many ts =>
          exact records_foldl_preserved _
            (fun st2 t => records_removeInverselyRelatedRecord st2 t _) ts st
      | single t => exact records_removeInverselyRelatedRecord st t _
      | nullData => rfl

theorem getInv_removeInverseRelationships_self (s : CacheState) (i : RecordIdentity) :
    getInverselyRelatedRecords (removeInverseRelationships s i) i = [] := by
  unfold getInverselyRelatedRecords removeInverseRelationships
  simp [dictGet_dictSet_self, dictGet_dictRemove_self]

theorem getInv_integrityRemoveAll_self (s : CacheState) (i : RecordIdentity) :
    getInverselyRelatedRecords (integrityRemoveAllInverseRelationships s i) i = [] := by
  unfold integrityRemoveAllInverseRelationships
  exact getInv_removeInverseRelationships_self _ i

theorem i1_removeRecordPrim (s : CacheState) (i : RecordIdentity) (h : i1Holds s) :
    i1Holds (removeRecordPrim s i).1 := by
  unfold removeRecordPrim
  cases hg : getRecord s i with
  | none => exact h
  | some r =>
      simp only []
      intro tb htb ir hir
      rcases mem_dictSet htb with hmem | heq
      · exact h tb hmem ir hir
      · subst heq
        have hmem2 := mem_dictRemove hir
        have hb : dictGet s.records i.type = some ((dictGet s.records i.type).getD []) := by
          cases hgb : dictGet s.records i.type with
          | none => simp [hgb] at hmem2
          | some b => simp [hgb]
        exact h (i.type, (dictGet s.records i.type).getD []) (dictGet_mem hb) ir hmem2

theorem getRecord_removeRecordPrim_self (s : CacheState) (i : RecordIdentity) :
    getRecord (removeRecordPrim s i).1 i = none := by
  unfold removeRecordPrim
  cases hg : getRecord s i with
  | none => exact hg
  | some r =>
      simp only [getRecord, dictGet_dictSet_self, Option.some_bind]
      exact dictGet_dictRemove_self _ i.id

theorem getRecord_removeRecordPrim_ne (s : CacheState) (i j : RecordIdentity)
    (h : ¬(j.type = i.type ∧ j.id = i.id)) :
    getRecord (removeRecordPrim s i).1 j = getRecord s j := by
  unfold removeRecordPrim
  cases hg : getRecord s i with
  | none => rfl
  | some r =>
      simp only []
      by_cases hty : j.type = i.type
      · have hid : j.id ≠ i.id := fun hc => h ⟨hty, hc⟩
        have hb : dictGet s.records i.type = some ((dictGet s.records i.type).getD []) := by
          unfold getRecord at hg
          cases hgb : dictGet s.records i.type with
          | none => rw [hgb] at hg; simp at hg
          | some b => simp [hgb]
        show ((dictGet (dictSet s.records i.type _) j.type).bind (fun b => dictGet b j.id)) =
          getRecord s j
        rw [hty, dictGet_dictSet_self]
        simp only [Option.some_bind]
        rw [dictGet_dictRemove_ne _ i.id j.id (fun hc => hid hc.symm)]
        show _ = (dictGet s.records j.type).bind (fun b => dictGet b j.id)
        rw [hty, hb]
        simp
      · show ((dictGet (dictSet s.records i.type _) j.type).bind (fun b => dictGet b j.id)) =
          getRecord s j
        rw [dictGet_dictSet_ne s.records i.type j.type _ (fun hc => hty hc.symm)]
        rfl

theorem hasPtr_removeRecordPrim (sch : Schema) (s : CacheState) (i x owner : RecordIdentity)
    (rel : String) (hp : hasPtr sch (removeRecordPrim s i).1 x owner rel) :
    hasPtr sch s x owner rel := by
  obtain ⟨rr, dd, rdef, hgr, hrd, hm, hdef, hinvd⟩ := hp
  by_cases howner : owner.type = i.type ∧ owner.id = i.id
  · exfalso
    have hcoord : getRecord (removeRecordPrim s i).1 owner =
        getRecord (removeRecordPrim s i).1 i := by
      unfold getRecord
      rw [howner.1, howner.2]
    rw [hcoord, getRecord_removeRecordPrim_self] at hgr
    exact Option.noConfusion hgr
  · rw [getRecord_removeRecordPrim_ne s i owner howner] at hgr
    exact ⟨rr, dd, rdef, hgr, hrd, hm, hdef, hinvd⟩

/-- Invariant I4 forward direction at a pointer: the pointer has a back-ref
entry in the inverse index. -/
theorem i4_backref (sch : Schema) (s : CacheState) (x : RecordIdentity)
    (h4 : i4Forward sch s x) (owner : RecordIdentity) (rel : String)
    (hp : hasPtr sch s x owner rel) :
    (⟨owner, rel⟩ : RelatedRecordIdentity) ∈ getInverselyRelatedRecords s x := by
  obtain ⟨r, d, rdef, hgr, hrd, hm, hdef, hinvd⟩ := hp
  unfold getRecord at hgr
  cases hb : dictGet s.records owner.type with
  | none => rw [hb] at hgr; simp at hgr
  | some bucket =>
      rw [hb] at hgr
      simp only [Option.some_bind] at hgr
      have htb := dictGet_mem hb
      have hir := dictGet_mem hgr
      have hkv : (rel, d) ∈ r.relationships.getD [] := by
        unfold relDataOf at hrd
        cases hrels : r.relationships with
        | none => rw [hrels] at hrd; simp at hrd
        | some rels =>
            rw [hrels] at hrd
            simp only [Option.some_bind] at hrd
            simpa using dictGet_mem hrd
      have hdecl : relDeclInv sch r.type rel = true := by
        unfold relDeclInv
        rw [hdef]
        exact hinvd
      have hmem := h4 (owner.type, bucket) htb (owner.id, r) hir (rel, d) hkv hm hdecl
      simpa [recordIdentity_eta] using hmem

/-- Each operation of a cleanup list that clears the pair at x leaves no
pointer at x under that pair after the whole fold. -/
theorem cleanup_fold_clears (sch : Schema) (x : RecordIdentity) (fuel : Nat) :
    ∀ (L : List RecordOperation) (s : CacheState) (res : PatchResult)
      (s' : CacheState) (res' : PatchResult),
      (∀ op ∈ L, cleanupOp op) → CleanInv sch x s →
      List.foldlM (fun p op => applyOperation sch fuel p.1 p.2 false op) (s, res) L =
        .ok (s', res') →
      ∀ op ∈ L, clearsX x op →
        ¬ hasPtr sch s' x op.recordIdentity op.relationshipName := by
  intro L
  induction L with
  | nil =>
      intro s res s' res' _ _ _ op hop
      simp at hop
  | cons hd t ihL =>
      intro s res s' res' hall hinv hfold op hop hcl
      rw [List.foldlM_cons] at hfold
      obtain ⟨⟨s₁, res₁⟩, happ, hfold⟩ := except_bind_ok_inv hfold
      obtain ⟨hinv₁, _, hclhd⟩ :=
        cleanup_apply sch x fuel hd s res false s₁ res₁
          (hall hd (List.mem_cons_self _ _)) hinv happ
      rcases List.mem_cons.mp hop with h1 | h2
      · rw [h1] at hcl
        rw [h1]
        obtain ⟨_, hsub⟩ := cleanup_fold sch x fuel (cleanup_apply sch x fuel)
          t s₁ res₁ s' res' (fun op₂ hop₂ => hall op₂ (List.mem_cons_of_mem _ hop₂)) hinv₁ hfold
        intro hp
        exact hclhd hcl (hsub _ _ hp)
      · exact ihL s₁ res₁ s' res'
          (fun op₂ hop₂ => hall op₂ (List.mem_cons_of_mem _ hop₂)) hinv₁ hfold op h2 hcl

/-- C2: for every state satisfying the bucket-key invariant I1 whose inverse
index covers every inverse-declared pointer at x (the forward half of I4),
with x present, after a patch consisting of removeRecord(x) completes no
remaining record names x in the data of a relationship whose schema
declaration has a named inverse, no back-refs for x remain in the inverse
index, and x itself is gone from the store. -/
theorem removeRecord_referential_integrity (sch : Schema) (fuel : Nat) (s : CacheState)
    (x : RecordIdentity) (s' : CacheState) (res : PatchResult)
    (h1 : i1Holds s) (h4 : i4Forward sch s x) (hpresent : getRecord s x ≠ none)
    (hrun : patch sch fuel s [.removeRecord x] = .ok (s', res)) :
    (∀ owner rel, ¬ hasPtr sch s' x owner rel) ∧
    getInverselyRelatedRecords s' x = [] ∧
    getRecord s' x = none := by
  unfold patch at hrun
  obtain ⟨⟨sA, resA⟩, happ, hpure⟩ := except_bind_ok_inv hrun
  simp only [except_pure, Except.ok.injEq, Prod.mk.injEq] at hpure
  obtain ⟨hsA, _⟩ := hpure
  unfold applyOperations at happ
  rw [List.foldlM_cons] at happ
  obtain ⟨⟨sB, resB⟩, hop, hnil⟩ := except_bind_ok_inv happ
  simp only [List.foldlM_nil, except_pure, Except.ok.injEq, Prod.mk.injEq] at hnil
  obtain ⟨hsB, _⟩ := hnil
  cases fuel with
  | zero => simp [applyOperation] at hop
  | succ fuel =>
      simp only [applyOperation] at hop
      obtain ⟨u, hval, hop⟩ := except_bind_ok_inv hop
      obtain ⟨invOp, hinvop, hop⟩ := except_bind_ok_inv hop
      cases hg : getRecord s x with
      | none => exact absurd hg hpresent
      | some r₀ =>
      have hinveq : invOp = some (.addRecord r₀) := by
        unfold inverseTransform at hinvop
        simp only [] at hinvop
        rw [hg] at hinvop
        simp only [Except.ok.injEq] at hinvop
        exact hinvop.symm
      subst hinveq
      simp only [] at hop
      obtain ⟨consistencyOps, hcons, hop⟩ := except_bind_ok_inv hop
      obtain ⟨⟨s₁, integrityOps⟩, hint, hop⟩ := except_bind_ok_inv hop
      simp only [] at hop
      obtain ⟨⟨s₂, datum⟩, hpat, hop⟩ := except_bind_ok_inv hop
      simp only [] at hop
      obtain ⟨⟨s₃, res₃⟩, hfold1, hop⟩ := except_bind_ok_inv hop
      simp only [] at hop
      obtain ⟨⟨s₄, finOps⟩, hfin, hop⟩ := except_bind_ok_inv hop
      simp only [] at hop
      obtain ⟨⟨s₅, res₅⟩, hfold2, hop⟩ := except_bind_ok_inv hop
      simp only [except_pure, Except.ok.injEq, Prod.mk.injEq] at hop
      obtain ⟨hs₅B, _⟩ := hop
      unfold integrityAfter at hint
      simp only [] at hint
      obtain ⟨clearOps, hclear, hpureI⟩ := except_bind_ok_inv hint
      simp only [except_pure, Except.ok.injEq, Prod.mk.injEq] at hpureI
      obtain ⟨hs₁, hIO⟩ := hpureI
      have hrecs₁ : s₁.records = s.records := by
        rw [← hs₁]; exact records_integrityRemoveAll s x
      have hinvempty : getInverselyRelatedRecords s₁ x = [] := by
        rw [← hs₁]; exact getInv_integrityRemoveAll_self s x
      subst hIO
      unfold patchOperator at hpat
      simp only [] at hpat
      cases hrp : removeRecordPrim s₁ x with
      | mk s₂x prior =>
          rw [hrp] at hpat
          simp only [Except.ok.injEq, Prod.mk.injEq] at hpat
          obtain ⟨hs₂, _⟩ := hpat
          have hi1₁ : i1Holds s₁ := i1_of_records_eq s s₁ hrecs₁ h1
          have hinv₂ : CleanInv sch x s₂x := by
            refine ⟨?_, ?_, ?_⟩
            · have hh := i1_removeRecordPrim s₁ x hi1₁
              rw [hrp] at hh
              exact hh
            · have hh := getRecord_removeRecordPrim_self s₁ x
              rw [hrp] at hh
              exact hh
            · have hix : (removeRecordPrim s₁ x).1.inverseRelationships =
                  s₁.inverseRelationships := inverseRelationships_removeRecordPrim s₁ x
              rw [hrp] at hix
              rw [getInv_of_index_eq s₁ s₂x hix x]
              exact hinvempty
          have hsubRm : ∀ owner rel, hasPtr sch s₂ x owner rel → hasPtr sch s₁ x owner rel := by
            intro owner rel hp
            have hh : hasPtr sch (removeRecordPrim s₁ x).1 x owner rel := by
              rw [hrp]
              rw [hs₂]
              exact hp
            exact hasPtr_removeRecordPrim sch s₁ x x owner rel hh
          rw [hs₂] at hinv₂
          have hshape1 := consistencyAfter_removeRecord_shape sch s x consistencyOps hcons
          have hshape2 := clearInverseRelationshipOps_shape sch s x clearOps hclear
          have hall : ∀ op ∈ consistencyOps ++ clearOps, cleanupOp op := by
            intro op hop₂
            rcases List.mem_append.mp hop₂ with hl | hl
            · exact (hshape1 op hl).1
            · exact (hshape2.1 op hl).1
          obtain ⟨hinv₃, hsub₃⟩ := cleanup_fold sch x fuel (cleanup_apply sch x fuel)
            (consistencyOps ++ clearOps) s₂ _ s₃ res₃ hall hinv₂ hfold1
          have hclears := cleanup_fold_clears sch x fuel (consistencyOps ++ clearOps)
            s₂ _ s₃ res₃ hall hinv₂ hfold1
          unfold integrityFinally at hfin
          simp only [except_pure, Except.ok.injEq, Prod.mk.injEq] at hfin
          obtain ⟨hs₄, hFO⟩ := hfin
          subst hs₄
          subst hFO
          simp only [List.foldlM_nil, except_pure, Except.ok.injEq, Prod.mk.injEq] at hfold2
          obtain ⟨hs₅, _⟩ := hfold2
          have hs'3 : s' = s₃ := by
            rw [← hsA, ← hsB, ← hs₅B, ← hs₅]
          subst hs'3
          refine ⟨?_, hinv₃.norefs, hinv₃.absent⟩
          intro owner rel hp
          have hp₂ := hsub₃ owner rel hp
          have hp₁ := hsubRm owner rel hp₂
          have hpS : hasPtr sch s x owner rel :=
            (hasPtr_of_records_eq sch s s₁ hrecs₁ x owner rel).mp hp₁
          have hback := i4_backref sch s x h4 owner rel hpS
          obtain ⟨op, hopmem, hopid, hoprel⟩ := hshape2.2 ⟨owner, rel⟩ hback
          have hcl : clearsX x op := (hshape2.1 op hopmem).2
          have hnp := hclears op (List.mem_append_right _ hopmem) hcl
          rw [hopid, hoprel] at hnp
          exact hnp hp

/-- The jupiter record of the removal scenario, holding both moons. -/
def c2Jupiter : Record :=
  { type := "planet", id := "jupiter",
    relationships := some [("moons", RelData.many [ioId, europaId])] }

/-- The io record of the removal scenario, pointing back at jupiter. -/
def c2Io : Record :=
  { type := "moon", id := "io",
    relationships := some [("planet", RelData.single jupiterId)] }

/-- The europa record of the removal scenario, pointing back at jupiter. -/
def c2Europa : Record :=
  { type := "moon", id := "europa",
    relationships := some [("planet", RelData.single jupiterId)] }

/-- The removal scenario state: jupiter holds both moons, each moon points
back at jupiter, and the inverse index records every pointer. -/
def c2State : CacheState :=
  { records :=
      [("planet", [("jupiter", c2Jupiter)]),
       ("moon", [("io", c2Io), ("europa", c2Europa)]),
       ("solarSystem", [])],
    inverseRelationships :=
      [("planet", [("jupiter", [⟨ioId, "planet"⟩, ⟨europaId, "planet"⟩])]),
       ("moon", [("io", [⟨jupiterId, "moons"⟩]), ("europa", [⟨jupiterId, "moons"⟩])]),
       ("solarSystem", [])] }

/-- The state the removal scenario ends in: jupiter gone, each moon's planet
pointer nulled, every inverse-index entry cleared. -/
def c2Final : CacheState :=
  { records :=
      [("planet", []),
       ("moon",
        [("io", { type := "moon", id := "io",
                  relationships := some [("planet", RelData.nullData)] }),
         ("europa", { type := "moon", id := "europa",
                      relationships := some [("planet", RelData.nullData)] })]),
       ("solarSystem", [])],
    inverseRelationships :=
      [("planet", []), ("moon", [("io", []), ("europa", [])]), ("solarSystem", [])] }

/-- The patch result of the removal scenario: the cascaded hasOne inverses
followed by the re-adding inverse of the primary removal, pre-reversal order
reversed by patch, with the removed record as the primary datum. -/
def c2FinalRes : PatchResult :=
  { inverse :=
      [.replaceRelatedRecord europaId "planet" (.single jupiterId),
       .replaceRelatedRecord ioId "planet" (.single jupiterId),
       .addRecord c2Jupiter],
    data := [some c2Jupiter] }

theorem removeRecord_referential_integrity_witness :
    patch testSchema 8 c2State [.removeRecord jupiterId] = .ok (c2Final, c2FinalRes) ∧
    (∀ owner rel, ¬ hasPtr testSchema c2Final jupiterId owner rel) ∧
    getInverselyRelatedRecords c2Final jupiterId = [] ∧
    getRecord c2Final jupiterId = none :=
  ⟨by rfl,
   removeRecord_referential_integrity testSchema 8 c2State jupiterId c2Final c2FinalRes
     (by decide) (by decide) (by decide) (by rfl)⟩

end Orbit
